import Mathlib

/-! Maintenance engine of the `db` package.

A shallow embedding of `db/upkeep.go`, `db/admin.go` and `db/reader.go`:

* the thread-retention threshold and the selection of stale threads
  (`deleteOldThreads`),
* the purge of a post together with its moderation-log entry (`PurgePost`),
* board pruning (`deleteUnusedBoards`, `deleteBoard`),
* the reconciliation of dangling open posts (`closeDanglingPosts`),
* the scheduler's task sets (`runCleanupTasks`, `runHourTasks`),
* the translation of permission errors (`castPermissionError`),
* the readers: the signalling of missing rows (`castNoRows`), the board
  catalog (`GetBoardCatalog`), the meta-information of open posts
  (`OpenPostMetaFromPost`) and of a thread (`GetThreadMeta`).

Conventions.  Go `uint`/`uint64` values are natural numbers, reduced modulo
`2^64` where the source multiplies or converts them; `int64` values are
integers, wrapped by `toInt64` where the source subtracts or multiplies them.
A `float64` is the rational number it holds.  The threshold is given twice:
`threshold` reads its arithmetic over the exact rationals, for the shape of
the retention curve; `thresholdFloat64` rounds every operation as the machine
does, for the deletion boundary.

Collaborators.  Inside a transaction, calls into the store are answered by a
`Store`, a record of state-passing operations over an arbitrary state type,
and the calls issued are collected in a trace together with the errors they
returned; the maintenance tasks of the scheduler are state-passing in the
same way.  The body parser, `ClosePost` and the statements of the moderation
entry points are called once per argument and are answered by functions of
their arguments.  Every statement is proved for all such collaborators.
-/

namespace Meguca

/-! ## Machine integers -/

/-- Two's-complement wrap of an integer into the `int64` range. -/
def toInt64 (x : Int) : Int := (x + 2 ^ 63) % 2 ^ 64 - 2 ^ 63

/-- Wrap of a natural number into the `uint64` range. -/
def toUint64 (x : Nat) : Nat := x % 2 ^ 64

/-! ## Configuration -/

/-- Operating modes, `config.ImagerMode`: the modes `NoImager` and `ImagerOnly`
named in `upkeep.go`, and the remaining mode, in which a process does the
work of both. -/
inductive ImagerModeType where
  | IntegratedImager
  | NoImager
  | ImagerOnly
  deriving DecidableEq, Repr

/-- The fields of the server configuration read by the maintenance tasks.
The expiry fields are Go `uint` values counted in days. -/
structure Configs where
  PruneThreads : Bool
  ThreadExpiryMin : Nat
  ThreadExpiryMax : Nat
  PruneBoards : Bool
  BoardExpiry : Nat
  deriving Repr

/-! ## Thread retention (`deleteOldThreads`) -/

/-- One row of the thread query of `deleteOldThreads`:
`t.id`, `bump_time`, `post_count(t.id)` and the existence of a moderation
record of type `DeletePost` whose `post_id` is the thread id. -/
structure ThreadRow where
  id : Nat
  bumpTime : Int
  postCount : Nat
  deleted : Bool
  deriving Repr, DecidableEq

/-- The value `float64(days * 24 * 3600)` of `deleteOldThreads`, the product
being taken in `uint`. -/
def expirySeconds (days : Nat) : Nat := toUint64 (days * 24 * 3600)

/-- The retention threshold computed in the row callback of
`deleteOldThreads`, its arithmetic read over the exact rationals.
`bumpLimit` is the constant `common.BumpLimit`. -/
def threshold (bumpLimit : Nat) (min max : ℚ) (postCount : Nat) (deleted : Bool) : ℚ :=
  let threshold := min + (-max + min) * ((postCount : ℚ) / (bumpLimit : ℚ) - 1) ^ 3
  let threshold := if deleted then threshold / 3 else threshold
  if threshold < min then min else threshold

/-- Round to the nearest integer, a tie to the even one. -/
def roundHalfEven (s : ℚ) : ℤ :=
  if s - ⌊s⌋ < 1 / 2 then ⌊s⌋
  else if 1 / 2 < s - ⌊s⌋ then ⌊s⌋ + 1
  else if ⌊s⌋ % 2 = 0 then ⌊s⌋ else ⌊s⌋ + 1

/-- The unit in the last place of a positive `x` held with 53 significant
bits: `2 ^ (e - 52)` where `2 ^ e ≤ x < 2 ^ (e + 1)`. -/
def ulp (x : ℚ) : ℚ := 2 ^ (Int.log 2 x - 52)

/-- The value nearest to a positive `x` among those with 53 significant bits,
a tie going to the even significand. -/
def roundPos (x : ℚ) : ℚ := roundHalfEven (x / ulp x) * ulp x

/-- The `float64` nearest to `x`: the result of a conversion to `float64`, and
of a `float64` operation whose exact result is `x`. -/
def roundFloat64 (x : ℚ) : ℚ :=
  if x = 0 then 0
  else if 0 < x then roundPos x
  else -roundPos (-x)

/-- The retention threshold as the row callback of `deleteOldThreads` computes
it in `float64`, `min` and `max` being `float64` values, without fused
multiply-add.  The call `math.Pow(x, 3)` is the square-and-multiply loop of
the standard library: `x` times the rounded square of `x`.  `bumpLimit` is the
constant `common.BumpLimit`, not zero: a division by zero, with its infinity
or NaN, is not modelled. -/
def thresholdFloat64 (bumpLimit : Nat) (min max : ℚ) (postCount : Nat) (deleted : Bool) : ℚ :=
  let x := roundFloat64
    (roundFloat64 (roundFloat64 postCount / roundFloat64 bumpLimit) - 1)
  let pow := roundFloat64 (x * roundFloat64 (x * x))
  let threshold := roundFloat64 (min + roundFloat64 (roundFloat64 (-max + min) * pow))
  let threshold := if deleted then roundFloat64 (threshold / 3) else threshold
  if threshold < min then min else threshold

/-- The row callback of `deleteOldThreads` in `float64`: the thread id is
appended to `toDel` when `float64(now-bumpTime) > threshold`. -/
def deleteOldThreads.scanFloat64 (bumpLimit : Nat) (now : Int) (min max : ℚ)
    (toDel : List Nat) (r : ThreadRow) : List Nat :=
  if roundFloat64 ((toInt64 (now - r.bumpTime) : Int) : ℚ)
      > thresholdFloat64 bumpLimit min max r.postCount r.deleted then
    toDel ++ [r.id]
  else
    toDel

/-- The list `toDel` of `deleteOldThreads` after the thread query has passed
every row to the callback, computed in `float64`; there is none when
`PruneThreads` is off, as the function then returns before any query. -/
def deleteOldThreads.toDel (bumpLimit : Nat) (conf : Configs) (now : Int)
    (rows : List ThreadRow) : Option (List Nat) :=
  if !conf.PruneThreads then
    none
  else
    let min : ℚ := roundFloat64 (expirySeconds conf.ThreadExpiryMin : ℚ)
    let max : ℚ := roundFloat64 (expirySeconds conf.ThreadExpiryMax : ℚ)
    some (rows.foldl (deleteOldThreads.scanFloat64 bumpLimit now min max) [])

/-! ## Errors -/

/-- Non-nil Go error values: a `common.StatusError` with its HTTP status
code, or an error of any other type. -/
inductive Error where
  | StatusError (msg : String) (Code : Nat)
  | other (msg : String)
  deriving DecidableEq, Repr

/-! ## Moderation log -/

/-- The moderation actions named in the sources, `common.ModerationAction`. -/
inductive ModerationAction where
  | DeletePost
  | LockThread
  | DeleteBoard
  | PurgePost
  deriving DecidableEq, Repr

/-- A moderation entry, `common.ModerationEntry`. -/
structure ModerationEntry where
  Type_ : ModerationAction
  Length : Nat
  By : String
  Data : String
  deriving DecidableEq, Repr

/-- A moderation-log entry, `auth.ModLogEntry`. -/
structure ModLogEntry extends ModerationEntry where
  ID : Nat
  Board : String
  deriving DecidableEq, Repr

/-! ## Store and transactions -/

/-- The calls a transactional unit issues: the prepared statements run on the
transaction and the removal of uploaded assets. -/
inductive Call where
  | purge_post (id : Nat)
  | delete_image (hash : String)
  | assets_Delete (hash : String) (fileType thumbType : Nat)
  | delete_post_body (id : Nat)
  | delete_board (id : String)
  | log_moderation (e : ModLogEntry)
  deriving DecidableEq, Repr

/-- The row scanned from `purge_post`: the board and the nullable image
columns. -/
structure PurgeRow where
  board : String
  hash : Option String
  fileType : Option Nat
  thumbType : Option Nat
  deriving DecidableEq, Repr

/-- A row of the `boards` table; `created` in nanoseconds since the epoch. -/
structure BoardRow where
  id : String
  created : Int
  deriving DecidableEq, Repr

/-- A row of the `threads` table; `bump_time` in Unix seconds. -/
structure ThreadRec where
  board : String
  bump_time : Int
  deriving DecidableEq, Repr

/-- The store and the asset directory, over an arbitrary state: the answer to
the `purge_post` query, the answer to every other call, and the tables a
board query reads (or the error with which that query fails). -/
structure Store (σ : Type) where
  purge_post : Nat → σ → Except Error PurgeRow × σ
  Exec : Call → σ → Option Error × σ
  tables : σ → Except Error (List BoardRow × List ThreadRec)

/-- How a transactional unit ends: without error, with an error, or in a
run-time panic (a nil pointer dereference). -/
inductive Result where
  | ok
  | err (e : Error)
  | panic
  deriving DecidableEq, Repr

/-- A transaction in progress: the state of the store and the calls issued so
far, each with the error it returned. -/
structure Tx (σ : Type) where
  state : σ
  trace : List (Call × Option Error)

/-- Run `tx.Exec` (or `assets.Delete`) and record the call. -/
def Tx.Exec {σ : Type} (db : Store σ) (c : Call) (tx : Tx σ) : Option Error × Tx σ :=
  let r := db.Exec c tx.state
  (r.1, { state := r.2, trace := tx.trace ++ [(c, r.1)] })

/-- Write moderation action to board-level and post-level logs. -/
def logModeration {σ : Type} (db : Store σ) (e : ModLogEntry) (tx : Tx σ) :
    Option Error × Tx σ :=
  Tx.Exec db (Call.log_moderation e) tx

/-- What a call of `InTransaction` leaves behind: the result returned to the
caller, the calls issued on the transaction, and whether it was committed. -/
structure TxReport where
  result : Result
  trace : List (Call × Option Error)
  committed : Bool
  deriving DecidableEq, Repr

/-- Modelled from the spec: `InTransaction` is declared outside the given
sources.  The unit of work is run on a fresh transaction; if it returns
without error the transaction commits, otherwise it rolls back and the error
propagates unchanged. -/
def InTransaction {σ : Type} (fn : Tx σ → Result × Tx σ) (s : σ) : TxReport :=
  match fn { state := s, trace := [] } with
  | (Result.ok, tx) => { result := Result.ok, trace := tx.trace, committed := true }
  | (r, tx) => { result := r, trace := tx.trace, committed := false }

/-! ## `PurgePost` -/

/-- The transactional unit of `PurgePost`. -/
def PurgePost.fn {σ : Type} (db : Store σ) (id : Nat) (by_ reason : String) (tx : Tx σ) :
    Result × Tx σ :=
  match db.purge_post id tx.state with
  | (Except.error e, s) =>
    (Result.err e, { state := s, trace := tx.trace ++ [(Call.purge_post id, some e)] })
  | (Except.ok row, s) =>
    let tx : Tx σ := { state := s, trace := tx.trace ++ [(Call.purge_post id, none)] }
    let image : Result × Tx σ :=
      match row.hash with
      | none => (Result.ok, tx)
      | some hash =>
        match Tx.Exec db (Call.delete_image hash) tx with
        | (some e, tx) => (Result.err e, tx)
        | (none, tx) =>
          match row.fileType, row.thumbType with
          | some fileType, some thumbType =>
            match Tx.Exec db (Call.assets_Delete hash fileType thumbType) tx with
            | (some e, tx) => (Result.err e, tx)
            | (none, tx) => (Result.ok, tx)
          | _, _ => (Result.panic, tx)
    match image with
    | (Result.ok, tx) =>
      match Tx.Exec db (Call.delete_post_body id) tx with
      | (some e, tx) => (Result.err e, tx)
      | (none, tx) =>
        match logModeration db
            { Type_ := ModerationAction.PurgePost, Length := 0, By := by_, Data := reason,
              ID := id, Board := row.board } tx with
        | (some e, tx) => (Result.err e, tx)
        | (none, tx) => (Result.ok, tx)
    | (r, tx) => (r, tx)

/-- Clear post contents and remove any uploaded image from the server. -/
def PurgePost {σ : Type} (db : Store σ) (id : Nat) (by_ reason : String) (s : σ) : TxReport :=
  InTransaction (PurgePost.fn db id by_ reason) s

/-! ## Board pruning -/

/-- The constant `time.Hour`, a `time.Duration` in nanoseconds. -/
def Hour : Int := 3600000000000

/-- The cutoff `time.Now().Add(-time.Duration(conf.BoardExpiry) * time.Hour * 24)`
of `deleteUnusedBoards`, times being nanoseconds since the epoch and the
duration being computed in `int64`. -/
def deleteUnusedBoards.min (conf : Configs) (now : Int) : Int :=
  now + toInt64 (toInt64 (toInt64 (-(toInt64 (toUint64 conf.BoardExpiry))) * Hour) * 24)

/-- The method `Time.Unix`: whole seconds since the epoch. -/
def Unix (t : Int) : Int := t / 1000000000

/-- The subquery `select coalesce(max(bump_time), 0) from threads where
board = boards.id`. -/
def latestBump (threads : List ThreadRec) (board : String) : Int :=
  match (threads.filter (fun t => t.board == board)).map ThreadRec.bump_time with
  | [] => 0
  | b :: bs => bs.foldl max b

/-- The board query of `deleteUnusedBoards`:
`created < min and id != 'all' and (latest bump) < min.Unix()`. -/
def deleteUnusedBoards.query (boards : List BoardRow) (threads : List ThreadRec)
    (min : Int) : List String :=
  (boards.filter (fun b =>
    decide (b.created < min) && (b.id != "all")
      && decide (latestBump threads b.id < Unix min))).map BoardRow.id

/-- Delete a board and write the deletion to the global moderation log. -/
def deleteBoard {σ : Type} (db : Store σ) (id by_ reason : String) (tx : Tx σ) :
    Option Error × Tx σ :=
  match Tx.Exec db (Call.delete_board id) tx with
  | (some e, tx) => (some e, tx)
  | (none, tx) =>
    logModeration db
      { Type_ := ModerationAction.DeleteBoard, Length := 0, By := by_, Data := reason,
        ID := 0, Board := "all" } tx

/-- The loop of `deleteUnusedBoards` over the inactive boards. -/
def deleteUnusedBoards.loop {σ : Type} (db : Store σ) : List String → Tx σ → Result × Tx σ
  | [], tx => (Result.ok, tx)
  | b :: bs, tx =>
    match deleteBoard db b "system" ("board " ++ b ++ " deleted for inactivity") tx with
    | (some e, tx) => (Result.err e, tx)
    | (none, tx) => deleteUnusedBoards.loop db bs tx

/-- The transactional unit of `deleteUnusedBoards`. -/
def deleteUnusedBoards.fn {σ : Type} (db : Store σ) (min : Int) (tx : Tx σ) : Result × Tx σ :=
  match db.tables tx.state with
  | Except.error e => (Result.err e, tx)
  | Except.ok (boards, threads) =>
    deleteUnusedBoards.loop db (deleteUnusedBoards.query boards threads min) tx

/-- Delete boards that are older than N days and have not had any new posts
for N days. -/
def deleteUnusedBoards {σ : Type} (db : Store σ) (conf : Configs) (now : Int) (s : σ) :
    TxReport :=
  if !conf.PruneBoards then
    { result := Result.ok, trace := [], committed := false }
  else
    InTransaction (deleteUnusedBoards.fn db (deleteUnusedBoards.min conf now)) s

/-! ## Dangling open posts (`closeDanglingPosts`) -/

/-- A row of the open-post query of `closeDanglingPosts`. -/
structure closeDanglingPosts.post where
  id : Nat
  board : String
  body : String
  deriving DecidableEq, Repr

/-- The arguments of one call of `ClosePost`, over the link and command
types of the parser. -/
structure CloseCall (L C : Type) where
  id : Nat
  board : String
  body : String
  links : List L
  com : List C

/-- The loop of `closeDanglingPosts` over the selected posts.  `ParseBody`
takes the body and the board whose configuration is looked up, and returns
the three results `links, com, err`; `ClosePost` answers with the error of
the store.  The result is the error returned and the calls of `ClosePost`
issued, in order. -/
def closeDanglingPosts.loop {L C : Type}
    (ParseBody : String → String → List L × List C × Option Error)
    (ClosePost : CloseCall L C → Option Error) :
    List closeDanglingPosts.post → Option Error × List (CloseCall L C)
  | [] => (none, [])
  | p :: ps =>
    match ParseBody p.body p.board with
    | (links, com, err) =>
      let close : Option Error × List (CloseCall L C) :=
        let call : CloseCall L C :=
          { id := p.id, board := p.board, body := p.body, links := links, com := com }
        match ClosePost call with
        | some e => (some e, [call])
        | none =>
          let r := closeDanglingPosts.loop ParseBody ClosePost ps
          (r.1, call :: r.2)
      match err with
      | none => close
      | some (Error.StatusError msg Code) =>
        -- Still close posts on invalid input
        if Code ≠ 400 then (some (Error.StatusError msg Code), []) else close
      | some e => (some e, [])

/-- Close any open posts that have not been closed for 30 minutes.  `query`
is the outcome of the open-post query: its rows in ascending id order, or the
error with which it failed. -/
def closeDanglingPosts {L C : Type}
    (ParseBody : String → String → List L × List C × Option Error)
    (ClosePost : CloseCall L C → Option Error)
    (query : Except Error (List closeDanglingPosts.post)) :
    Option Error × List (CloseCall L C) :=
  match query with
  | Except.error e => (some e, [])
  | Except.ok posts => closeDanglingPosts.loop ParseBody ClosePost posts

/-- The parser succeeded, or failed with a bad-input error
(`StatusError` with code 400). -/
def tolerated : Option Error → Bool
  | none => true
  | some (Error.StatusError _ Code) => Code == 400
  | some (Error.other _) => false

/-- The call of `ClosePost` that closes post `p` with the links and commands
the parser returned for it. -/
def closeCallOf {L C : Type} (ParseBody : String → String → List L × List C × Option Error)
    (p : closeDanglingPosts.post) : CloseCall L C :=
  { id := p.id, board := p.board, body := p.body,
    links := (ParseBody p.body p.board).1, com := (ParseBody p.body p.board).2.1 }

/-! ## Scheduler (`runCleanupTasks`, `runHourTasks`) -/

/-- The maintenance tasks dispatched by the scheduler. -/
inductive Task where
  | FlushOpenPostBodies
  | syncSpamScores
  | closeDanglingPosts
  | clean_up_expiries
  | removeIdentityInfo
  | deleteOldThreads
  | deleteUnusedBoards
  | vacuum
  | deleteUnusedImages
  deriving DecidableEq, Repr

/-- The scheduler's view of a run: the state the tasks act on, the tasks
invoked so far and the failures logged so far. -/
structure Upkeep (σ : Type) where
  state : σ
  invoked : List Task
  logged : List (String × Error)

/-- Invoke a task; `tasks` gives, for every task, the error it returns and
the state it leaves. -/
def Upkeep.run {σ : Type} (tasks : Task → σ → Option Error × σ) (t : Task) (u : Upkeep σ) :
    Option Error × Upkeep σ :=
  let r := tasks t u.state
  (r.1, { state := r.2, invoked := u.invoked ++ [t], logged := u.logged })

/-- Log the error of a finished task, if any, under the task's label. -/
def logError {σ : Type} (label : String) (r : Option Error × Upkeep σ) : Upkeep σ :=
  match r.1 with
  | none => r.2
  | some e => { state := r.2.state, invoked := r.2.invoked, logged := r.2.logged ++ [(label, e)] }

/-- The hourly task set. -/
def runHourTasks {σ : Type} (ImagerMode : ImagerModeType)
    (tasks : Task → σ → Option Error × σ) (u : Upkeep σ) : Upkeep σ :=
  let u :=
    if ImagerMode ≠ ImagerModeType.ImagerOnly then
      let u := logError "remove identity info" (Upkeep.run tasks Task.removeIdentityInfo u)
      let u := logError "thread cleanup" (Upkeep.run tasks Task.deleteOldThreads u)
      let u := logError "board cleanup" (Upkeep.run tasks Task.deleteUnusedBoards u)
      logError "vaccum database" (Upkeep.run tasks Task.vacuum u)
    else u
  if ImagerMode ≠ ImagerModeType.NoImager then
    logError "image cleanup" (Upkeep.run tasks Task.deleteUnusedImages u)
  else u

/-- The three periodic triggers of `runCleanupTasks`. -/
inductive Tick where
  | sec
  | min
  | hour
  deriving DecidableEq, Repr

/-- The body of the `select` statement of `runCleanupTasks`: the handler of
one trigger. -/
def runCleanupTasks.select {σ : Type} (ImagerMode : ImagerModeType)
    (tasks : Task → σ → Option Error × σ) (tick : Tick) (u : Upkeep σ) : Upkeep σ :=
  match tick with
  | Tick.sec =>
    let u := logError "flush open post bodies" (Upkeep.run tasks Task.FlushOpenPostBodies u)
    logError "spam score buffer flush" (Upkeep.run tasks Task.syncSpamScores u)
  | Tick.min =>
    let u :=
      if ImagerMode ≠ ImagerModeType.ImagerOnly then
        logError "open post cleanup" (Upkeep.run tasks Task.closeDanglingPosts u)
      else u
    logError "expired row cleanup" (Upkeep.run tasks Task.clean_up_expiries u)
  | Tick.hour => runHourTasks ImagerMode tasks u

/-- The loop of `runCleanupTasks` over the triggers that fire, in the order
in which they are received. -/
def runCleanupTasks {σ : Type} (ImagerMode : ImagerModeType)
    (tasks : Task → σ → Option Error × σ) (ticks : List Tick) (u : Upkeep σ) : Upkeep σ :=
  ticks.foldl (fun u tick => runCleanupTasks.select ImagerMode tasks tick u) u

/-- The task set of a trigger, as determined by the operating mode alone. -/
def taskSet (ImagerMode : ImagerModeType) : Tick → List Task
  | Tick.sec => [Task.FlushOpenPostBodies, Task.syncSpamScores]
  | Tick.min =>
    (if ImagerMode = ImagerModeType.ImagerOnly then [] else [Task.closeDanglingPosts])
      ++ [Task.clean_up_expiries]
  | Tick.hour =>
    (if ImagerMode = ImagerModeType.ImagerOnly then []
      else [Task.removeIdentityInfo, Task.deleteOldThreads, Task.deleteUnusedBoards, Task.vacuum])
      ++ (if ImagerMode = ImagerModeType.NoImager then [] else [Task.deleteUnusedImages])

/-- The task set of a trigger with the label under which a failure of each
task is logged, as determined by the operating mode alone. -/
def labelledTaskSet (ImagerMode : ImagerModeType) : Tick → List (String × Task)
  | Tick.sec =>
    [("flush open post bodies", Task.FlushOpenPostBodies),
     ("spam score buffer flush", Task.syncSpamScores)]
  | Tick.min =>
    (if ImagerMode = ImagerModeType.ImagerOnly then []
      else [("open post cleanup", Task.closeDanglingPosts)])
      ++ [("expired row cleanup", Task.clean_up_expiries)]
  | Tick.hour =>
    (if ImagerMode = ImagerModeType.ImagerOnly then []
      else [("remove identity info", Task.removeIdentityInfo),
            ("thread cleanup", Task.deleteOldThreads),
            ("board cleanup", Task.deleteUnusedBoards),
            ("vaccum database", Task.vacuum)])
      ++ (if ImagerMode = ImagerModeType.NoImager then []
          else [("image cleanup", Task.deleteUnusedImages)])

/-- One task run in isolation: the task acts on the state, it is recorded as
invoked, and the error it returns, if any, is recorded in the log under the
task's label and has no other effect. -/
def isolatedRun {σ : Type} (tasks : Task → σ → Option Error × σ) (u : Upkeep σ)
    (job : String × Task) : Upkeep σ :=
  { state := (tasks job.2 u.state).2
    invoked := u.invoked ++ [job.2]
    logged := u.logged ++
      (match (tasks job.2 u.state).1 with
        | none => []
        | some e => [(job.1, e)]) }

/-! ## Permission errors -/

/-- Modelled from the spec: `extractException` is declared outside the given
sources.  It yields the exception text a store error carries; that text is
given by `exception`, and the nil error carries none. -/
def extractException (exception : Error → String) : Option Error → String
  | none => ""
  | some e => exception e

/-- Replace an error that carries the exception text "access denied" by
`common.ErrNoPermissions`. -/
def castPermissionError (exception : Error → String) (ErrNoPermissions : Error)
    (err : Option Error) : Option Error :=
  if extractException exception err = "access denied" then some ErrNoPermissions else err

/-- The statements the moderation entry points send to the store. -/
inductive Query where
  | delete_images (ids : List Nat) (by_ : String)
  | spoiler_images (ids : List Nat) (by_ : String)
  | delete_posts (ids : List Nat) (by_ : String)
  | delete_posts_by_ip (id : Nat) (account : String) (seconds : Int) (reason : String)
  | get_same_ip_posts (id : Nat) (by_ : String)
  deriving DecidableEq, Repr

/-- DeleteImage permanently deletes an image from a post. -/
def DeleteImages (Exec : Query → Option Error) (exception : Error → String)
    (ErrNoPermissions : Error) (ids : List Nat) (by_ : String) : Option Error :=
  castPermissionError exception ErrNoPermissions (Exec (Query.delete_images ids by_))

/-- ModSpoilerImage spoilers image as a moderator. -/
def ModSpoilerImages (Exec : Query → Option Error) (exception : Error → String)
    (ErrNoPermissions : Error) (ids : List Nat) (by_ : String) : Option Error :=
  castPermissionError exception ErrNoPermissions (Exec (Query.spoiler_images ids by_))

/-- DeletePost marks the target post as deleted. -/
def DeletePosts (Exec : Query → Option Error) (exception : Error → String)
    (ErrNoPermissions : Error) (ids : List Nat) (by_ : String) : Option Error :=
  castPermissionError exception ErrNoPermissions (Exec (Query.delete_posts ids by_))

/-- Delete posts of the same IP as target post on board and optionally keep
deleting posts by this IP.  `keepDeleting` is a `time.Duration` in
nanoseconds. -/
def DeletePostsByIP (Exec : Query → Option Error) (exception : Error → String)
    (ErrNoPermissions : Error) (id : Nat) (account : String) (keepDeleting : Int)
    (reason : String) : Option Error :=
  let seconds : Int := if keepDeleting ≠ 0 then Int.tdiv keepDeleting 1000000000 else 0
  castPermissionError exception ErrNoPermissions
    (Exec (Query.delete_posts_by_ip id account seconds reason))

/-- GetSameIPPosts returns posts with the same IP and on the same board as
the target post. -/
def GetSameIPPosts (QueryRow : Query → List Nat × Option Error) (exception : Error → String)
    (ErrNoPermissions : Error) (id : Nat) (by_ : String) : List Nat × Option Error :=
  let r := QueryRow (Query.get_same_ip_posts id by_)
  (r.1, castPermissionError exception ErrNoPermissions r.2)

/-- The error `returned` is the translation of the store's error `stored`:
it is `ErrNoPermissions` exactly when the store's error carries the exception
text "access denied" or already was that error, and otherwise it is the
store's error unchanged. -/
def PermissionTranslated (exception : Error → String) (ErrNoPermissions : Error)
    (stored returned : Option Error) : Prop :=
  (returned = some ErrNoPermissions
      ↔ extractException exception stored = "access denied" ∨ stored = some ErrNoPermissions)
  ∧ (¬ (extractException exception stored = "access denied") → returned = stored)

/-! ## Reading a trace -/

/-- Whether a call writes a moderation-log entry. -/
def Call.isLog : Call → Bool
  | Call.log_moderation _ => true
  | _ => false

/-- The moderation-log entries written by a sequence of calls. -/
def logEntries (trace : List (Call × Option Error)) : List (Call × Option Error) :=
  trace.filter (fun x => x.1.isLog)

/-- The two calls by which `deleteUnusedBoards` removes one board: the
deletion and its entry in the global moderation log. -/
def pruneCalls (b : String) : List (Call × Option Error) :=
  [ (Call.delete_board b, none),
    (Call.log_moderation
      { Type_ := ModerationAction.DeleteBoard, Length := 0, By := "system",
        Data := "board " ++ b ++ " deleted for inactivity", ID := 0, Board := "all" }, none) ]

/-! ## Sample collaborators

Concrete stores and a concrete parser on which the statements below are
evaluated. -/

/-- A store over the trivial state: `purge_post` yields `row`, every other
call is answered by `answer`, and board queries read the given tables. -/
def scriptedStore (row : PurgeRow) (answer : Call → Option Error)
    (boards : List BoardRow) (threads : List ThreadRec) : Store Unit where
  purge_post := fun _ s => (Except.ok row, s)
  Exec := fun c s => (answer c, s)
  tables := fun _ => Except.ok (boards, threads)

/-- A store in which every call succeeds. -/
def calmStore (row : PurgeRow) (boards : List BoardRow) (threads : List ThreadRec) :
    Store Unit :=
  scriptedStore row (fun _ => none) boards threads

/-- A store in which the deletion of the image row fails. -/
def imageFailStore (row : PurgeRow) : Store Unit :=
  scriptedStore row
    (fun c => match c with
      | Call.delete_image _ => some (Error.other "delete_image failed")
      | _ => none) [] []

/-- A store in which the write of a moderation-log entry fails. -/
def logFailStore (boards : List BoardRow) (threads : List ThreadRec) : Store Unit :=
  scriptedStore ⟨"a", none, none, none⟩
    (fun c => match c with
      | Call.log_moderation _ => some (Error.other "log_moderation failed")
      | _ => none) boards threads

/-- A parser with links and commands in the natural numbers: the body "bad"
is rejected as bad input, the body "boom" fails otherwise, and every other
body yields one link and one command. -/
def sampleParseBody (body _board : String) : List Nat × List Nat × Option Error :=
  if body = "bad" then ([], [], some (Error.StatusError "invalid input" 400))
  else if body = "boom" then ([], [], some (Error.other "parser failure"))
  else ([1], [2], none)

/-- A parser that rejects the body "bad" as bad input and returns, together
with that error, the link and the command it had read so far. -/
def partialParseBody (body _board : String) : List Nat × List Nat × Option Error :=
  if body = "bad" then ([1], [2], some (Error.StatusError "invalid input" 400))
  else ([1], [2], none)

/-! ## Readers (`reader.go`) -/

/-- The statements the readers send to the store, each with the arguments it
is sent with; `get_board_catalog` is sent without arguments. -/
inductive ReaderQuery where
  | get_thread (id : Nat) (page : Int)
  | get_post (id : Nat)
  | get_board_catalog
  | get_board (board : String) (page : Nat)
  | get_all_board (page : Nat)
  deriving DecidableEq, Repr

/-- The buffer `emptyArray`, the two bytes of the text "[]". -/
def emptyArray : List Nat := [91, 93]

/-- The field of `common.Image` read by `OpenPostMetaFromPost`. -/
structure Image where
  Spoiler : Bool
  deriving DecidableEq, Repr

/-- The fields of `common.Post` read by `OpenPostMetaFromPost`; `Image` is a
pointer, nil when the post has no image. -/
structure Post where
  Page : Nat
  Body : String
  Image : Option Image
  deriving DecidableEq, Repr

/-- Open post meta information. -/
structure OpenPostMeta where
  HasImage : Bool
  Spoilered : Bool
  Page : Nat
  Body : String
  deriving DecidableEq, Repr

/-- Populate OpenPostMeta from post data. -/
def OpenPostMetaFromPost (p : Post) : OpenPostMeta :=
  let m : OpenPostMeta :=
    { HasImage := false, Spoilered := false, Page := p.Page, Body := p.Body }
  match p.Image with
  | some image =>
    { HasImage := true, Spoilered := image.Spoiler, Page := m.Page, Body := m.Body }
  | none => m

/-- The PL/pgSQL functions return null on non-existence.  Cast that to
`pgx.ErrNoRows`.  The result is the buffer and the error after the call. -/
def castNoRows (ErrNoRows : Error) (buf : List Nat) (err : Option Error) :
    List Nat × Option Error :=
  if err = none ∧ buf.length = 0 then (buf, some ErrNoRows) else (buf, err)

/-- GetThread retrieves public thread data from the database. -/
def GetThread (QueryRow : ReaderQuery → List Nat × Option Error) (ErrNoRows : Error)
    (id : Nat) (page : Int) : List Nat × Option Error :=
  let r := QueryRow (ReaderQuery.get_thread id page)
  castNoRows ErrNoRows r.1 r.2

/-- GetPost reads a single post from the database. -/
def GetPost (QueryRow : ReaderQuery → List Nat × Option Error) (ErrNoRows : Error)
    (id : Nat) : List Nat × Option Error :=
  let r := QueryRow (ReaderQuery.get_post id)
  castNoRows ErrNoRows r.1 r.2

/-- Ensure buf is always an array. -/
def ensureArray (buf : List Nat) : List Nat :=
  if buf.length = 0 then emptyArray else buf

/-- GetBoardCatalog retrieves all OPs of a single board. -/
def GetBoardCatalog (QueryRow : ReaderQuery → List Nat × Option Error) (_board : String) :
    List Nat × Option Error :=
  let r := QueryRow ReaderQuery.get_board_catalog
  (ensureArray r.1, r.2)

/-- Retrieves all threads for a specific board on a specific page. -/
def GetBoard (QueryRow : ReaderQuery → List Nat × Option Error) (ErrNoRows : Error)
    (board : String) (page : Nat) : List Nat × Option Error :=
  let r := QueryRow (ReaderQuery.get_board board page)
  castNoRows ErrNoRows r.1 r.2

/-- Retrieves all threads for the "/all/" meta-board on a specific page. -/
def GetAllBoard (QueryRow : ReaderQuery → List Nat × Option Error) (ErrNoRows : Error)
    (page : Nat) : List Nat × Option Error :=
  let r := QueryRow (ReaderQuery.get_all_board page)
  castNoRows ErrNoRows r.1 r.2

/-- The pair `returned` is the answer `stored` of the store after the cast of
null to "no rows": the buffer is the store's; the error is `ErrNoRows` when the
store succeeded with an empty buffer, nil when it succeeded with a non-empty
buffer, and the store's error when it failed. -/
def NoRowsSignalled (ErrNoRows : Error) (stored returned : List Nat × Option Error) : Prop :=
  returned.1 = stored.1
  ∧ (stored.2 = none → stored.1 = [] → returned.2 = some ErrNoRows)
  ∧ (stored.2 = none → stored.1 ≠ [] → returned = (stored.1, none))
  ∧ (∀ e, stored.2 = some e → returned.2 = some e)

/-! ## Thread meta-information (`GetThreadMeta`) -/

/-- A Go map with `uint64` keys: the value stored under each key, if any.
The nil map and the empty map both store nothing. -/
abbrev GoMap (V : Type) := Nat → Option V

/-- The map without entries. -/
def GoMap.empty {V : Type} : GoMap V := fun _ => none

/-- The assignment `m[k] = v`. -/
def GoMap.set {V : Type} (m : GoMap V) (k : Nat) (v : V) : GoMap V :=
  fun x => if x = k then some v else m x

/-- The elements of the slice `dst` after the built-in `copy(dst, src)`: the
first `min(len(dst), len(src))` elements are overwritten, the length of `dst`
stays. -/
def copy {α : Type} (dst src : List α) : List α :=
  src.take dst.length ++ dst.drop src.length

/-- The statement `copy(moderation[id], mod)`: the elements of the slice
stored under `id` are overwritten in place; when nothing is stored under `id`
the index expression yields the nil slice, and nothing is copied or stored. -/
def copyModeration (moderation : GoMap (List ModerationEntry)) (id : Nat)
    (mod : List ModerationEntry) : GoMap (List ModerationEntry) :=
  match moderation id with
  | none => moderation
  | some dst => GoMap.set moderation id (copy dst mod)

/-- The result set of a query: the outcome of `Scan` for each row that
`Next` yields, then the results of `Err` and of `Close`. -/
structure Rows (α : Type) where
  scanned : List (Except Error α)
  Err : Option Error
  Close : Option Error

/-- The loop `for r.Next() { err = r.Scan(...); if err != nil { return }; ... }`:
`body` is run on every scanned row until a scan or the body fails. -/
def forRows {α β : Type} (body : β → α → β × Option Error) :
    List (Except Error α) → β → β × Option Error
  | [], acc => (acc, none)
  | Except.error e :: _, acc => (acc, some e)
  | Except.ok a :: rest, acc =>
    match body acc a with
    | (acc, some e) => (acc, some e)
    | (acc, none) => forRows body rest acc

/-- The store as `GetThreadMeta` reads it: the result of
`FlushOpenPostBodies`, and for a thread the result sets of the three queries,
over `id, page`, over `id, sha1 is not null, spoiler, page` of the open posts,
and over `id, get_post_moderation(id)` of the moderated posts. -/
structure MetaStore where
  FlushOpenPostBodies : Option Error
  posts : Nat → Except Error (Rows (Nat × Nat))
  openPosts : Nat → Except Error (Rows (Nat × Bool × Bool × Nat))
  moderated : Nat → Except Error (Rows (Nat × List Nat))

/-- The four results of `GetThreadMeta`. -/
structure ThreadMeta where
  all : GoMap Nat
  open_ : GoMap OpenPostMeta
  moderation : GoMap (List ModerationEntry)
  err : Option Error

/-- Get thread meta-information for initializing thread update feeds.
`Unmarshal` is `json.Unmarshal` into a slice of moderation entries; the error
of `InTransaction` is the error of its unit. -/
def GetThreadMeta (db : MetaStore)
    (Unmarshal : List Nat → Except Error (List ModerationEntry)) (thread : Nat) :
    ThreadMeta :=
  match db.FlushOpenPostBodies with
  | some e =>
    { all := GoMap.empty, open_ := GoMap.empty, moderation := GoMap.empty, err := some e }
  | none =>
    match db.posts thread with
    | Except.error e =>
      { all := GoMap.empty, open_ := GoMap.empty, moderation := GoMap.empty, err := some e }
    | Except.ok r =>
      let allRun := forRows (fun (all : GoMap Nat) (row : Nat × Nat) =>
        (GoMap.set all row.1 row.2, none)) r.scanned GoMap.empty
      let all := allRun.1
      match allRun.2, r.Err, r.Close with
      | some e, _, _ =>
        { all := all, open_ := GoMap.empty, moderation := GoMap.empty, err := some e }
      | none, some e, _ =>
        { all := all, open_ := GoMap.empty, moderation := GoMap.empty, err := some e }
      | none, none, some e =>
        { all := all, open_ := GoMap.empty, moderation := GoMap.empty, err := some e }
      | none, none, none =>
        match db.openPosts thread with
        | Except.error e =>
          { all := all, open_ := GoMap.empty, moderation := GoMap.empty, err := some e }
        | Except.ok r =>
          let openRun := forRows
            (fun (open_ : GoMap OpenPostMeta) (row : Nat × Bool × Bool × Nat) =>
              (GoMap.set open_ row.1
                { HasImage := row.2.1, Spoilered := row.2.2.1, Page := row.2.2.2, Body := "" },
                none))
            r.scanned GoMap.empty
          let open_ := openRun.1
          match openRun.2, r.Err, r.Close with
          | some e, _, _ =>
            { all := all, open_ := open_, moderation := GoMap.empty, err := some e }
          | none, some e, _ =>
            { all := all, open_ := open_, moderation := GoMap.empty, err := some e }
          | none, none, some e =>
            { all := all, open_ := open_, moderation := GoMap.empty, err := some e }
          | none, none, none =>
            match db.moderated thread with
            | Except.error e =>
              { all := all, open_ := open_, moderation := GoMap.empty, err := some e }
            | Except.ok r =>
              let modRun := forRows
                (fun (moderation : GoMap (List ModerationEntry)) (row : Nat × List Nat) =>
                  match Unmarshal row.2 with
                  | Except.error e => (moderation, some e)
                  | Except.ok mod => (copyModeration moderation row.1 mod, none))
                r.scanned GoMap.empty
              match modRun.2 with
              | some e =>
                { all := all, open_ := open_, moderation := modRun.1, err := some e }
              | none =>
                { all := all, open_ := open_, moderation := modRun.1, err := r.Err }

/-- The store of the reader tests, seen from thread 1: the posts 1 and 2 on
page 0, no open post, and post 1 moderated, its moderation read as the buffer
`[1]`. -/
def sampleMetaStore : MetaStore where
  FlushOpenPostBodies := none
  posts := fun _ => Except.ok
    { scanned := [Except.ok (1, 0), Except.ok (2, 0)], Err := none, Close := none }
  openPosts := fun _ => Except.ok { scanned := [], Err := none, Close := none }
  moderated := fun _ => Except.ok
    { scanned := [Except.ok (1, [1])], Err := none, Close := none }

/-- A decoder that reads every buffer as the one moderation entry of the
reader tests' post 1. -/
def sampleUnmarshal (_buf : List Nat) : Except Error (List ModerationEntry) :=
  Except.ok [{ Type_ := ModerationAction.DeletePost, Length := 0, By := "admin", Data := "test" }]

/-! # Theorems -/

/-! ## Thread retention -/

theorem cube_mono {a b : ℚ} (h : a ≤ b) : a ^ 3 ≤ b ^ 3 := by
  nlinarith [mul_nonneg (sub_nonneg.2 h) (add_nonneg (sq_nonneg (a + b)) (add_nonneg (sq_nonneg a) (sq_nonneg b)))]

theorem threshold_eq_max (B : Nat) (mn mx : ℚ) (p : Nat) (d : Bool) :
    threshold B mn mx p d
      = max mn (if d then (mn + (-mx + mn) * ((p : ℚ) / (B : ℚ) - 1) ^ 3) / 3
                else mn + (-mx + mn) * ((p : ℚ) / (B : ℚ) - 1) ^ 3) := by
  unfold threshold
  simp only []
  split_ifs with h1 h2 h2
  · exact (max_eq_left (le_of_lt h2)).symm
  · exact (max_eq_right (not_lt.1 h2)).symm
  · exact (max_eq_left (le_of_lt h2)).symm
  · exact (max_eq_right (not_lt.1 h2)).symm

theorem raw_antitone (B : Nat) (mn mx : ℚ) (h : mn ≤ mx) {p q : Nat} (hpq : p ≤ q) :
    mn + (-mx + mn) * ((q : ℚ) / (B : ℚ) - 1) ^ 3 ≤ mn + (-mx + mn) * ((p : ℚ) / (B : ℚ) - 1) ^ 3 := by
  have hB : (0 : ℚ) ≤ (B : ℚ) := Nat.cast_nonneg B
  have hc : ((p : ℚ)) ≤ (q : ℚ) := Nat.cast_le.2 hpq
  have h1 : (p : ℚ) / (B : ℚ) - 1 ≤ (q : ℚ) / (B : ℚ) - 1 :=
    sub_le_sub_right (div_le_div_of_nonneg_right hc hB) 1
  have h2 := cube_mono h1
  have h3 : -mx + mn ≤ 0 := by linarith
  nlinarith [mul_le_mul_of_nonpos_left h2 h3]

/-- Claim C1.  For fixed `min ≤ max` and a fixed moderation flag, the retention
threshold is non-increasing in the post count: `p ≤ q` gives
`threshold q ≤ threshold p`. -/
theorem threshold_antitone (B : Nat) (mn mx : ℚ) (d : Bool) (p q : Nat)
    (h : mn ≤ mx) (hpq : p ≤ q) :
    threshold B mn mx q d ≤ threshold B mn mx p d := by
  rw [threshold_eq_max, threshold_eq_max]
  have hr := raw_antitone B mn mx h hpq
  cases d
  · simp only [Bool.false_eq_true, if_false]
    exact max_le_max le_rfl hr
  · simp only [if_true]
    exact max_le_max le_rfl (by linarith)

/-- Witness of `threshold_antitone`: bounds of one and seven days, post counts
100 and 500. -/
theorem threshold_antitone_witness :
    (86400 : ℚ) ≤ 604800 ∧ 100 ≤ 500
    ∧ threshold 1000 86400 604800 500 false ≤ threshold 1000 86400 604800 100 false :=
  ⟨by norm_num, by norm_num,
    threshold_antitone 1000 86400 604800 false 100 500 (by norm_num) (by norm_num)⟩

theorem roundHalfEven_cases (s : ℚ) :
    (roundHalfEven s = ⌊s⌋ ∧ s - ⌊s⌋ ≤ 1 / 2) ∨ (roundHalfEven s = ⌊s⌋ + 1 ∧ 1 / 2 ≤ s - ⌊s⌋) := by
  unfold roundHalfEven
  split_ifs with h1 h2 h3
  · exact Or.inl ⟨rfl, le_of_lt h1⟩
  · exact Or.inr ⟨rfl, le_of_lt h2⟩
  · exact Or.inl ⟨rfl, not_lt.1 h2⟩
  · exact Or.inr ⟨rfl, not_lt.1 h1⟩

theorem roundHalfEven_intCast (z : ℤ) : roundHalfEven (z : ℚ) = z := by
  unfold roundHalfEven
  simp

theorem roundHalfEven_le (s : ℚ) : (roundHalfEven s : ℚ) ≤ s + 1 / 2 := by
  have hf := Int.floor_le s
  rcases roundHalfEven_cases s with ⟨h, _⟩ | ⟨h, h2⟩
  · rw [h]; linarith
  · rw [h]; push_cast; linarith

theorem le_roundHalfEven (s : ℚ) : s - 1 / 2 ≤ (roundHalfEven s : ℚ) := by
  have hf := Int.lt_floor_add_one s
  rcases roundHalfEven_cases s with ⟨h, h2⟩ | ⟨h, _⟩
  · rw [h]; linarith
  · rw [h]; push_cast; linarith

theorem roundHalfEven_mono {s t : ℚ} (h : s ≤ t) : roundHalfEven s ≤ roundHalfEven t := by
  have hfl : ⌊s⌋ ≤ ⌊t⌋ := Int.floor_le_floor h
  rcases lt_or_eq_of_le hfl with hlt | heq
  · rcases roundHalfEven_cases s with ⟨hs, _⟩ | ⟨hs, _⟩ <;>
      rcases roundHalfEven_cases t with ⟨ht, _⟩ | ⟨ht, _⟩ <;> omega
  · unfold roundHalfEven
    rw [heq]
    have hst : s - (⌊t⌋ : ℚ) ≤ t - (⌊t⌋ : ℚ) := by linarith
    split_ifs <;> first | omega | (exfalso; linarith)

theorem ulp_pos (x : ℚ) : 0 < ulp x := by
  unfold ulp
  positivity

theorem zpow_log_le {x : ℚ} (hx : 0 < x) : (2 : ℚ) ^ Int.log 2 x ≤ x := by
  have := Int.zpow_log_le_self (b := 2) (by norm_num) hx
  simpa using this

theorem lt_zpow_log_succ (x : ℚ) : x < (2 : ℚ) ^ (Int.log 2 x + 1) := by
  have := Int.lt_zpow_succ_log_self (b := 2) (by norm_num) x
  simpa using this

theorem ulp_mul (x : ℚ) : ulp x * 2 ^ (52 : ℕ) = 2 ^ Int.log 2 x := by
  unfold ulp
  rw [← zpow_natCast, ← zpow_add₀ (by norm_num : (2 : ℚ) ≠ 0)]
  congr 1
  push_cast
  ring

theorem scaled_ge {x : ℚ} (hx : 0 < x) : (2 : ℚ) ^ (52 : ℕ) ≤ x / ulp x := by
  rw [le_div_iff₀ (ulp_pos x), mul_comm, ulp_mul]
  exact zpow_log_le hx

theorem scaled_lt (x : ℚ) : x / ulp x < (2 : ℚ) ^ (53 : ℕ) := by
  rw [div_lt_iff₀ (ulp_pos x)]
  have h : (2 : ℚ) ^ (53 : ℕ) * ulp x = 2 ^ (Int.log 2 x + 1) := by
    rw [pow_succ, mul_assoc, mul_comm 2 (ulp x), ← mul_assoc, mul_comm _ (ulp x), ulp_mul,
      zpow_add_one₀ (by norm_num : (2 : ℚ) ≠ 0)]
  rw [h]
  exact lt_zpow_log_succ x

theorem significand_ge {x : ℚ} (hx : 0 < x) : (2 : ℤ) ^ (52 : ℕ) ≤ roundHalfEven (x / ulp x) := by
  have h := roundHalfEven_mono (scaled_ge hx)
  have e : ((2 : ℚ) ^ (52 : ℕ)) = (((2 : ℤ) ^ (52 : ℕ) : ℤ) : ℚ) := by norm_num
  rw [e, roundHalfEven_intCast] at h
  exact h

theorem significand_le (x : ℚ) : roundHalfEven (x / ulp x) ≤ (2 : ℤ) ^ (53 : ℕ) := by
  have h := roundHalfEven_mono (le_of_lt (scaled_lt x))
  have e : ((2 : ℚ) ^ (53 : ℕ)) = (((2 : ℤ) ^ (53 : ℕ) : ℤ) : ℚ) := by norm_num
  rw [e, roundHalfEven_intCast] at h
  exact h

theorem roundPos_ge {x : ℚ} (hx : 0 < x) : (2 : ℚ) ^ Int.log 2 x ≤ roundPos x := by
  unfold roundPos
  rw [← ulp_mul, mul_comm]
  apply mul_le_mul_of_nonneg_right _ (le_of_lt (ulp_pos x))
  have := significand_ge hx
  have h2 : (((2 : ℤ) ^ (52 : ℕ) : ℤ) : ℚ) ≤ (roundHalfEven (x / ulp x) : ℚ) := Int.cast_le.2 this
  simpa using h2

theorem roundPos_le (x : ℚ) : roundPos x ≤ (2 : ℚ) ^ (Int.log 2 x + 1) := by
  unfold roundPos
  have h : (2 : ℚ) ^ (Int.log 2 x + 1) = 2 ^ (53 : ℕ) * ulp x := by
    rw [pow_succ, mul_assoc, mul_comm 2 (ulp x), ← mul_assoc, mul_comm _ (ulp x), ulp_mul,
      zpow_add_one₀ (by norm_num : (2 : ℚ) ≠ 0)]
  rw [h]
  apply mul_le_mul_of_nonneg_right _ (le_of_lt (ulp_pos x))
  have := significand_le x
  have h2 : (roundHalfEven (x / ulp x) : ℚ) ≤ (((2 : ℤ) ^ (53 : ℕ) : ℤ) : ℚ) := Int.cast_le.2 this
  simpa using h2

theorem roundPos_pos {x : ℚ} (hx : 0 < x) : 0 < roundPos x :=
  lt_of_lt_of_le (by positivity) (roundPos_ge hx)

theorem roundPos_of_int {x : ℚ} (z : ℤ) (h : x / ulp x = z) : roundPos x = x := by
  unfold roundPos
  rw [h, roundHalfEven_intCast, ← h, div_mul_cancel₀ _ (ne_of_gt (ulp_pos x))]

theorem log_eq_of_bounds {y : ℚ} {e : ℤ} (h1 : (2 : ℚ) ^ e ≤ y) (h2 : y < (2 : ℚ) ^ (e + 1)) :
    Int.log 2 y = e := by
  have hy : 0 < y := lt_of_lt_of_le (by positivity) h1
  have a : e ≤ Int.log 2 y := by
    apply (Int.zpow_le_iff_le_log (b := 2) (by norm_num) hy).1
    simpa using h1
  have b : Int.log 2 y < e + 1 := by
    apply (Int.lt_zpow_iff_log_lt (b := 2) (by norm_num) hy).1
    simpa using h2
  omega

theorem roundPos_error (x : ℚ) :
    roundPos x ≤ x + ulp x / 2 ∧ x - ulp x / 2 ≤ roundPos x := by
  unfold roundPos
  have hu := ulp_pos x
  have e : x = x / ulp x * ulp x := (div_mul_cancel₀ _ (ne_of_gt hu)).symm
  have h1 := roundHalfEven_le (x / ulp x)
  have h2 := le_roundHalfEven (x / ulp x)
  constructor
  · have := mul_le_mul_of_nonneg_right h1 (le_of_lt hu)
    rw [add_mul, ← e] at this
    linarith
  · have := mul_le_mul_of_nonneg_right h2 (le_of_lt hu)
    rw [sub_mul, ← e] at this
    linarith

theorem roundPos_mono {x y : ℚ} (hx : 0 < x) (h : x ≤ y) : roundPos x ≤ roundPos y := by
  have hy : 0 < y := lt_of_lt_of_le hx h
  have hlog : Int.log 2 x ≤ Int.log 2 y := Int.log_mono_right hx h
  rcases lt_or_eq_of_le hlog with hlt | heq
  · calc roundPos x ≤ (2 : ℚ) ^ (Int.log 2 x + 1) := roundPos_le x
      _ ≤ (2 : ℚ) ^ Int.log 2 y := zpow_le_zpow_right₀ (by norm_num) (by omega)
      _ ≤ roundPos y := roundPos_ge hy
  · have hu : ulp x = ulp y := by unfold ulp; rw [heq]
    unfold roundPos
    rw [hu]
    apply mul_le_mul_of_nonneg_right _ (le_of_lt (ulp_pos y))
    apply Int.cast_le.2
    apply roundHalfEven_mono
    exact div_le_div_of_nonneg_right h (le_of_lt (ulp_pos y))

theorem roundPos_of_scaled_int (k : ℤ) (j : ℤ) (hk : 0 < k) (hk2 : k < 2 ^ (53 : ℕ)) :
    roundPos ((k : ℚ) * 2 ^ j) = (k : ℚ) * 2 ^ j := by
  have hkq : (0 : ℚ) < (k : ℚ) := Int.cast_pos.2 hk
  have hx : (0 : ℚ) < (k : ℚ) * 2 ^ j := by positivity
  have hk1 : (1 : ℚ) ≤ (k : ℚ) := by exact_mod_cast hk
  have hk3 : (k : ℚ) < 2 ^ (53 : ℕ) := by exact_mod_cast hk2
  -- the exponent of the value is at most `j + 52`
  have hj : Int.log 2 ((k : ℚ) * 2 ^ j) - 52 ≤ j := by
    by_contra hcon
    have hlt : j + 53 ≤ Int.log 2 ((k : ℚ) * 2 ^ j) := by omega
    have h1 : (k : ℚ) * 2 ^ j < 2 ^ (j + 53) := by
      rw [zpow_add₀ (by norm_num : (2 : ℚ) ≠ 0), mul_comm ((2 : ℚ) ^ j)]
      apply mul_lt_mul_of_pos_right _ (by positivity)
      have e53 : (2 : ℚ) ^ (53 : ℤ) = 2 ^ (53 : ℕ) := by norm_num
      rw [e53]
      exact hk3
    have h2 : (2 : ℚ) ^ (j + 53) ≤ 2 ^ Int.log 2 ((k : ℚ) * 2 ^ j) :=
      zpow_le_zpow_right₀ (by norm_num) hlt
    have h3 := zpow_log_le hx
    linarith
  obtain ⟨d, hd⟩ := Int.eq_ofNat_of_zero_le (by omega : 0 ≤ j - (Int.log 2 ((k : ℚ) * 2 ^ j) - 52))
  apply roundPos_of_int (k * 2 ^ d)
  unfold ulp
  rw [mul_div_assoc, ← zpow_sub₀ (by norm_num : (2 : ℚ) ≠ 0), hd]
  push_cast
  rw [zpow_natCast]

theorem roundPos_natCast_small (n : ℕ) (h0 : 0 < n) (h : n ≤ 2 ^ 53) :
    roundPos (n : ℚ) = n := by
  rcases lt_or_eq_of_le h with hlt | heq
  · have := roundPos_of_scaled_int (n : ℤ) 0 (by exact_mod_cast h0) (by exact_mod_cast hlt)
    simpa using this
  · have := roundPos_of_scaled_int 1 53 (by norm_num) (by norm_num)
    rw [heq]
    norm_num at this ⊢
    exact this

theorem roundPos_eq_scaled {x : ℚ} (hx : 0 < x) :
    ∃ (k : ℤ) (j : ℤ), 0 < k ∧ k < 2 ^ (53 : ℕ) ∧ Int.log 2 x - 52 ≤ j
      ∧ roundPos x = (k : ℚ) * 2 ^ j := by
  have h1 := significand_ge hx
  have h2 := significand_le x
  rcases lt_or_eq_of_le h2 with hlt | heq
  · exact ⟨roundHalfEven (x / ulp x), Int.log 2 x - 52, by omega, hlt, le_rfl, rfl⟩
  · refine ⟨1, Int.log 2 x + 1, by norm_num, by norm_num, by omega, ?_⟩
    unfold roundPos
    rw [heq]
    unfold ulp
    have e : (Int.log 2 x + 1 : ℤ) = (53 : ℕ) + (Int.log 2 x - 52) := by push_cast; ring
    rw [e, zpow_add₀ (by norm_num : (2 : ℚ) ≠ 0), zpow_natCast]
    push_cast
    ring

theorem roundPos_idem {x : ℚ} (hx : 0 < x) : roundPos (roundPos x) = roundPos x := by
  obtain ⟨k, j, hk, hk2, _, h⟩ := roundPos_eq_scaled hx
  rw [h]
  exact roundPos_of_scaled_int k j hk hk2

theorem roundPos_natCast_nat (n : ℕ) (h0 : 0 < n) : ∃ c : ℕ, roundPos (n : ℚ) = c := by
  rcases le_or_lt n (2 ^ 53) with h | h
  · exact ⟨n, roundPos_natCast_small n h0 h⟩
  · have hx : (0 : ℚ) < (n : ℚ) := by exact_mod_cast h0
    obtain ⟨k, j, hk, _, hj, hr⟩ := roundPos_eq_scaled hx
    have hlog : (53 : ℤ) ≤ Int.log 2 (n : ℚ) := by
      apply (Int.zpow_le_iff_le_log (b := 2) (by norm_num) hx).1
      have : ((2 : ℕ) : ℚ) ^ (53 : ℤ) = ((2 ^ 53 : ℕ) : ℚ) := by norm_num
      rw [this]
      exact_mod_cast le_of_lt h
    obtain ⟨d, hd⟩ := Int.eq_ofNat_of_zero_le (by omega : 0 ≤ j)
    obtain ⟨k', hk'⟩ := Int.eq_ofNat_of_zero_le (le_of_lt hk)
    refine ⟨k' * 2 ^ d, ?_⟩
    rw [hr, hd, hk', zpow_natCast]
    push_cast
    rfl

theorem roundFloat64_zero : roundFloat64 0 = 0 := by
  unfold roundFloat64
  simp

theorem roundFloat64_of_pos {x : ℚ} (hx : 0 < x) : roundFloat64 x = roundPos x := by
  unfold roundFloat64
  rw [if_neg (ne_of_gt hx), if_pos hx]

theorem roundFloat64_of_neg {x : ℚ} (hx : x < 0) : roundFloat64 x = -roundPos (-x) := by
  unfold roundFloat64
  rw [if_neg (ne_of_lt hx), if_neg (not_lt.2 (le_of_lt hx))]

theorem roundFloat64_neg (x : ℚ) : roundFloat64 (-x) = -roundFloat64 x := by
  rcases lt_trichotomy x 0 with h | h | h
  · rw [roundFloat64_of_neg h, roundFloat64_of_pos (neg_pos.2 h), neg_neg]
  · subst h; simp [roundFloat64_zero]
  · rw [roundFloat64_of_pos h, roundFloat64_of_neg (neg_neg_of_pos h), neg_neg]

theorem roundFloat64_nonneg {x : ℚ} (hx : 0 ≤ x) : 0 ≤ roundFloat64 x := by
  rcases lt_or_eq_of_le hx with h | h
  · rw [roundFloat64_of_pos h]; exact le_of_lt (roundPos_pos h)
  · rw [← h, roundFloat64_zero]

theorem roundFloat64_nonpos {x : ℚ} (hx : x ≤ 0) : roundFloat64 x ≤ 0 := by
  have := roundFloat64_nonneg (neg_nonneg.2 hx)
  rw [roundFloat64_neg] at this
  linarith

theorem roundFloat64_mono {x y : ℚ} (h : x ≤ y) : roundFloat64 x ≤ roundFloat64 y := by
  rcases lt_or_le 0 x with hx | hx
  · rw [roundFloat64_of_pos hx, roundFloat64_of_pos (lt_of_lt_of_le hx h)]
    exact roundPos_mono hx h
  · rcases le_or_lt 0 y with hy | hy
    · exact le_trans (roundFloat64_nonpos hx) (roundFloat64_nonneg hy)
    · have hx' : x < 0 := lt_of_le_of_lt h hy
      rw [roundFloat64_of_neg hx', roundFloat64_of_neg hy]
      exact neg_le_neg (roundPos_mono (neg_pos.2 hy) (neg_le_neg h))

theorem roundFloat64_idem (x : ℚ) : roundFloat64 (roundFloat64 x) = roundFloat64 x := by
  rcases lt_trichotomy x 0 with h | h | h
  · rw [roundFloat64_of_neg h, roundFloat64_neg,
      roundFloat64_of_pos (roundPos_pos (neg_pos.2 h)), roundPos_idem (neg_pos.2 h)]
  · subst h; simp [roundFloat64_zero]
  · rw [roundFloat64_of_pos h, roundFloat64_of_pos (roundPos_pos h), roundPos_idem h]

theorem roundFloat64_natCast_small (n : ℕ) (h : n ≤ 2 ^ 53) : roundFloat64 (n : ℚ) = n := by
  rcases Nat.eq_zero_or_pos n with h0 | h0
  · subst h0; simp [roundFloat64_zero]
  · rw [roundFloat64_of_pos (by exact_mod_cast h0)]
    exact roundPos_natCast_small n h0 h

theorem roundFloat64_natCast_nat (n : ℕ) : ∃ c : ℕ, roundFloat64 (n : ℚ) = c := by
  rcases Nat.eq_zero_or_pos n with h0 | h0
  · subst h0; exact ⟨0, by simp [roundFloat64_zero]⟩
  · rw [roundFloat64_of_pos (by exact_mod_cast h0)]
    exact roundPos_natCast_nat n h0

theorem roundFloat64_natCast_ge (n : ℕ) (h : n < 2 ^ 64) :
    (n : ℚ) - 2 ^ (10 : ℕ) ≤ roundFloat64 (n : ℚ) := by
  rcases Nat.eq_zero_or_pos n with h0 | h0
  · subst h0; simp [roundFloat64_zero]
  · have hx : (0 : ℚ) < (n : ℚ) := by exact_mod_cast h0
    rw [roundFloat64_of_pos hx]
    have herr := (roundPos_error (n : ℚ)).2
    have hlog : Int.log 2 (n : ℚ) < 64 := by
      apply (Int.lt_zpow_iff_log_lt (b := 2) (by norm_num) hx).1
      have : ((2 : ℕ) : ℚ) ^ (64 : ℤ) = ((2 ^ 64 : ℕ) : ℚ) := by norm_num
      rw [this]
      exact_mod_cast h
    have hulp : ulp (n : ℚ) ≤ 2 ^ (11 : ℕ) := by
      unfold ulp
      have e11 : (2 : ℚ) ^ (11 : ℤ) = 2 ^ (11 : ℕ) := by norm_num
      rw [← e11]
      exact zpow_le_zpow_right₀ (by norm_num) (by omega)
    have : ulp (n : ℚ) / 2 ≤ 2 ^ (10 : ℕ) := by
      have e : (2 : ℚ) ^ (11 : ℕ) = 2 * 2 ^ (10 : ℕ) := by norm_num
      rw [e] at hulp
      linarith
    linarith

/-- The key step of the deletion boundary: after rounding, the inactivity
`m + 1` is at most the threshold of a thread without posts, for bounds
`m < M` below `2 ^ 64`. -/
theorem roundFloat64_succ_le (m M : ℕ) (hlt : m < M) (hm : m < 2 ^ 64) :
    roundFloat64 ((m + 1 : ℕ) : ℚ)
      ≤ max (roundFloat64 (m : ℚ))
          (roundFloat64 (roundFloat64 (m : ℚ)
            + roundFloat64 (roundFloat64 (M : ℚ) - roundFloat64 (m : ℚ)))) := by
  obtain ⟨A, hA⟩ := roundFloat64_natCast_nat m
  obtain ⟨C, hC⟩ := roundFloat64_natCast_nat (m + 1)
  have hcb : roundFloat64 ((m + 1 : ℕ) : ℚ) ≤ roundFloat64 (M : ℚ) :=
    roundFloat64_mono (by exact_mod_cast hlt)
  rcases le_or_lt C A with hCA | hAC
  · apply le_trans _ (le_max_left _ _)
    rw [hA, hC]
    exact_mod_cast hCA
  · -- `C` is above `m`, `A` is at most `m`
    have hCm : m + 1 ≤ C := by
      by_contra hcon
      have hle : C ≤ m := by omega
      have h1 : roundFloat64 (C : ℚ) ≤ roundFloat64 (m : ℚ) :=
        roundFloat64_mono (by exact_mod_cast hle)
      rw [← hC, roundFloat64_idem, hC, hA] at h1
      have : C ≤ A := by exact_mod_cast h1
      omega
    have hAm : A ≤ m := by
      by_contra hcon
      have hle : m + 1 ≤ A := by omega
      have h1 : roundFloat64 ((m + 1 : ℕ) : ℚ) ≤ roundFloat64 (A : ℚ) :=
        roundFloat64_mono (by exact_mod_cast hle)
      rw [← hA, roundFloat64_idem, hA, hC] at h1
      have : C ≤ A := by exact_mod_cast h1
      omega
    have herr := roundFloat64_natCast_ge m hm
    rw [hA] at herr
    have hsmall : m + 1 - A ≤ 2 ^ 53 := by
      have h2 : (m : ℚ) - (A : ℚ) ≤ 2 ^ (10 : ℕ) := by linarith
      have h3 : ((m - A : ℕ) : ℚ) ≤ ((2 ^ 10 : ℕ) : ℚ) := by
        rw [Nat.cast_sub hAm]
        push_cast
        exact h2
      have h4 : m - A ≤ 2 ^ 10 := by exact_mod_cast h3
      have : (2 : ℕ) ^ 10 + 1 ≤ 2 ^ 53 := by norm_num
      omega
    have ht := roundFloat64_natCast_small (m + 1 - A) hsmall
    have hd : ((m + 1 - A : ℕ) : ℚ)
        ≤ roundFloat64 (roundFloat64 (M : ℚ) - roundFloat64 (m : ℚ)) := by
      rw [← ht]
      apply roundFloat64_mono
      rw [hA, Nat.cast_sub (by omega : A ≤ m + 1)]
      have : ((m + 1 : ℕ) : ℚ) ≤ roundFloat64 (M : ℚ) := by
        apply le_trans _ hcb
        rw [hC]
        exact_mod_cast hCm
      linarith
    apply le_trans _ (le_max_right _ _)
    apply roundFloat64_mono
    rw [hA]
    rw [hA, Nat.cast_sub (by omega : A ≤ m + 1)] at hd
    linarith

theorem roundHalfEven_near (s : ℚ) (k : ℤ) (h1 : (k : ℚ) - 1 / 2 < s) (h2 : s < (k : ℚ) + 1 / 2) :
    roundHalfEven s = k := by
  have hf := Int.floor_le s
  have hg := Int.lt_floor_add_one s
  have a : ⌊s⌋ ≤ k := by
    have : ((⌊s⌋ : ℤ) : ℚ) < ((k + 1 : ℤ) : ℚ) := by push_cast; linarith
    have := Int.cast_lt.1 this
    omega
  have b : k ≤ ⌊s⌋ + 1 := by
    have : ((k : ℤ) : ℚ) < ((⌊s⌋ + 2 : ℤ) : ℚ) := by push_cast; linarith
    have := Int.cast_lt.1 this
    omega
  unfold roundHalfEven
  split_ifs with c1 c2 c3
  · have : ((k : ℤ) : ℚ) < ((⌊s⌋ + 1 : ℤ) : ℚ) := by push_cast; linarith
    have := Int.cast_lt.1 this
    omega
  · have : ((⌊s⌋ : ℤ) : ℚ) < ((k : ℤ) : ℚ) := by linarith
    have := Int.cast_lt.1 this
    omega
  · exfalso
    have e : s - (⌊s⌋ : ℚ) = 1 / 2 := le_antisymm (not_lt.1 c2) (not_lt.1 c1)
    have x1 : ((k : ℤ) : ℚ) < ((⌊s⌋ + 1 : ℤ) : ℚ) := by push_cast; linarith
    have x2 : ((⌊s⌋ : ℤ) : ℚ) < ((k : ℤ) : ℚ) := by linarith
    have := Int.cast_lt.1 x1
    have := Int.cast_lt.1 x2
    omega
  · exfalso
    have e : s - (⌊s⌋ : ℚ) = 1 / 2 := le_antisymm (not_lt.1 c2) (not_lt.1 c1)
    have x1 : ((k : ℤ) : ℚ) < ((⌊s⌋ + 1 : ℤ) : ℚ) := by push_cast; linarith
    have x2 : ((⌊s⌋ : ℤ) : ℚ) < ((k : ℤ) : ℚ) := by linarith
    have := Int.cast_lt.1 x1
    have := Int.cast_lt.1 x2
    omega

theorem roundFloat64_near {x v : ℚ} (e k : ℤ) (h1 : (2 : ℚ) ^ e ≤ x) (h2 : x < (2 : ℚ) ^ (e + 1))
    (hv : v = (k : ℚ) * (2 : ℚ) ^ (e - 52)) (h3 : v - (2 : ℚ) ^ (e - 52) / 2 < x)
    (h4 : x < v + (2 : ℚ) ^ (e - 52) / 2) : roundFloat64 x = v := by
  have hx : 0 < x := lt_of_lt_of_le (by positivity) h1
  have hl : Int.log 2 x = e := log_eq_of_bounds h1 h2
  have hu : (0 : ℚ) < (2 : ℚ) ^ (e - 52) := by positivity
  rw [roundFloat64_of_pos hx]
  unfold roundPos ulp
  rw [hl, hv]
  congr 1
  rw [hv] at h3 h4
  have : roundHalfEven (x / (2 : ℚ) ^ (e - 52)) = k := by
    apply roundHalfEven_near
    · rw [lt_div_iff₀ hu]
      linarith
    · rw [div_lt_iff₀ hu]
      linarith
  rw [this]

/-! ## The deletion boundary in `float64` -/

theorem thresholdFloat64_no_posts (B : Nat) (mn mx : ℚ) :
    thresholdFloat64 B mn mx 0 false
      = max mn (roundFloat64 (mn + roundFloat64 (mx - mn))) := by
  have h1 : roundFloat64 (1 : ℚ) = 1 := by
    have := roundFloat64_natCast_small 1 (by norm_num)
    simpa using this
  have hm1 : roundFloat64 (-1 : ℚ) = -1 := by rw [roundFloat64_neg, h1]
  have hd : roundFloat64 (roundFloat64 (-mx + mn) * -1) = roundFloat64 (mx - mn) := by
    rw [mul_neg_one, ← roundFloat64_neg, roundFloat64_idem]
    congr 1
    ring
  unfold thresholdFloat64
  simp only [Nat.cast_zero, roundFloat64_zero, zero_div, zero_sub, hm1, mul_neg, mul_one,
    neg_neg, h1, neg_mul, one_mul, Bool.false_eq_true, if_false]
  rw [← mul_neg_one, hd]
  split_ifs with h
  · exact (max_eq_left (le_of_lt h)).symm
  · exact (max_eq_right (not_lt.1 h)).symm

theorem scanFloat64_keep (B : Nat) (now : Int) (mn mx : ℚ) (toDel : List Nat) (r : ThreadRow)
    (h : roundFloat64 ((toInt64 (now - r.bumpTime) : Int) : ℚ)
      ≤ thresholdFloat64 B mn mx r.postCount r.deleted) :
    deleteOldThreads.scanFloat64 B now mn mx toDel r = toDel := by
  unfold deleteOldThreads.scanFloat64
  rw [if_neg (not_lt.2 h)]

theorem scanFloat64_select (B : Nat) (now : Int) (mn mx : ℚ) (toDel : List Nat)
    (r : ThreadRow)
    (h : thresholdFloat64 B mn mx r.postCount r.deleted
      < roundFloat64 ((toInt64 (now - r.bumpTime) : Int) : ℚ)) :
    deleteOldThreads.scanFloat64 B now mn mx toDel r = toDel ++ [r.id] := by
  unfold deleteOldThreads.scanFloat64
  rw [if_pos h]

theorem foldl_scanFloat64 (B : Nat) (now : Int) (mn mx : ℚ) (rows : List ThreadRow)
    (acc : List Nat) :
    rows.foldl (deleteOldThreads.scanFloat64 B now mn mx) acc
      = acc ++ (rows.filter (fun r =>
          decide (thresholdFloat64 B mn mx r.postCount r.deleted
            < roundFloat64 ((toInt64 (now - r.bumpTime) : Int) : ℚ)))).map ThreadRow.id := by
  induction rows generalizing acc with
  | nil => simp
  | cons r rs ih =>
    rw [List.foldl_cons, ih]
    by_cases h : thresholdFloat64 B mn mx r.postCount r.deleted
        < roundFloat64 ((toInt64 (now - r.bumpTime) : Int) : ℚ)
    · rw [scanFloat64_select B now mn mx acc r h, List.filter_cons_of_pos (by simpa using h)]
      simp
    · rw [scanFloat64_keep B now mn mx acc r (not_lt.1 h),
        List.filter_cons_of_neg (by simpa using h)]

theorem boundary_row_kept (B : Nat) (now : Int) (m M id : Nat) (toDel : List Nat)
    (hlt : m < M) (hm : m < 2 ^ 64) :
    deleteOldThreads.scanFloat64 B now (roundFloat64 (m : ℚ)) (roundFloat64 (M : ℚ)) toDel
      ⟨id, now - ((m : Int) + 1), 0, false⟩ = toDel := by
  apply scanFloat64_keep
  simp only []
  rw [thresholdFloat64_no_posts]
  have ha : (0 : ℚ) ≤ roundFloat64 (m : ℚ) := roundFloat64_nonneg (Nat.cast_nonneg m)
  rcases lt_or_le (m + 1) (2 ^ 63) with hs | hs
  · have he : toInt64 (now - (now - ((m : Int) + 1))) = ((m + 1 : ℕ) : Int) := by
      unfold toInt64
      push_cast
      omega
    rw [he, Int.cast_natCast]
    exact roundFloat64_succ_le m M hlt hm
  · have he : toInt64 (now - (now - ((m : Int) + 1))) ≤ 0 := by
      unfold toInt64
      omega
    have hq : ((toInt64 (now - (now - ((m : Int) + 1))) : Int) : ℚ) ≤ 0 := by
      exact_mod_cast he
    exact le_trans (roundFloat64_nonpos hq) (le_trans ha (le_max_left _ _))

theorem expirySeconds_one : expirySeconds 1 = 86400 := by
  unfold expirySeconds toUint64
  norm_num

theorem expirySeconds_seven : expirySeconds 7 = 604800 := by
  unfold expirySeconds toUint64
  norm_num

theorem roundFloat64_86400 : roundFloat64 (86400 : ℚ) = 86400 := by
  have := roundFloat64_natCast_small 86400 (by norm_num)
  simpa using this

theorem roundFloat64_86401 : roundFloat64 (86401 : ℚ) = 86401 := by
  have := roundFloat64_natCast_small 86401 (by norm_num)
  simpa using this

theorem roundFloat64_518400 : roundFloat64 (518400 : ℚ) = 518400 := by
  have := roundFloat64_natCast_small 518400 (by norm_num)
  simpa using this

theorem roundFloat64_604800 : roundFloat64 (604800 : ℚ) = 604800 := by
  have := roundFloat64_natCast_small 604800 (by norm_num)
  simpa using this

theorem roundFloat64_1000000 : roundFloat64 (1000000 : ℚ) = 1000000 := by
  have := roundFloat64_natCast_small 1000000 (by norm_num)
  simpa using this

theorem thresholdFloat64_day_day :
    thresholdFloat64 1000 (86400 : ℚ) (86400 : ℚ) 0 false < (86401 : ℚ) := by
  have e : (86400 : ℚ) - 86400 = 0 := by norm_num
  have e2 : (86400 : ℚ) + 0 = 86400 := by norm_num
  rw [thresholdFloat64_no_posts, e, roundFloat64_zero, e2, roundFloat64_86400, max_self]
  norm_num

theorem thresholdFloat64_day_week :
    thresholdFloat64 1000 (86400 : ℚ) (604800 : ℚ) 0 false < (1000000 : ℚ) := by
  have e : (604800 : ℚ) - 86400 = 518400 := by norm_num
  have e2 : (86400 : ℚ) + 518400 = 604800 := by norm_num
  rw [thresholdFloat64_no_posts, e, roundFloat64_518400, e2, roundFloat64_604800]
  norm_num

theorem inactivity_86401 :
    ((toInt64 (1000000 - (1000000 - (((86400 : ℕ) : Int) + 1))) : Int) : ℚ) = (86401 : ℚ) := by
  have t : toInt64 (1000000 - (1000000 - (((86400 : ℕ) : Int) + 1))) = 86401 := by
    unfold toInt64
    omega
  rw [t]
  norm_num

theorem inactivity_1000000 : ((toInt64 (1000000 - 0) : Int) : ℚ) = (1000000 : ℚ) := by
  have t : toInt64 (1000000 - 0) = 1000000 := by
    unfold toInt64
    omega
  rw [t]
  norm_num

theorem expirySeconds_six : expirySeconds 6 = 518400 := by
  unfold expirySeconds toUint64
  norm_num

theorem roundFloat64_456786 : roundFloat64 (456786 : ℚ) = 456786 := by
  have := roundFloat64_natCast_small 456786 (by norm_num)
  simpa using this

theorem inactivity_456786 :
    ((toInt64 (1000000 - (1000000 - 456786)) : Int) : ℚ) = (456786 : ℚ) := by
  have t : toInt64 (1000000 - (1000000 - 456786)) = 456786 := by
    unfold toInt64
    omega
  rw [t]
  norm_num

theorem quotient_50_1000 :
    roundFloat64 ((50 : ℚ) / 1000) = 3602879701896397 / 72057594037927936 := by
  apply roundFloat64_near (-5) 7205759403792794 <;> norm_num

theorem shifted_50_1000 :
    roundFloat64 ((3602879701896397 : ℚ) / 72057594037927936 - 1)
      = -(4278419646001971 / 4503599627370496) := by
  have e : (3602879701896397 : ℚ) / 72057594037927936 - 1
      = -(68454714336031539 / 72057594037927936) := by norm_num
  rw [e, roundFloat64_neg]
  congr 1
  apply roundFloat64_near (-1) 8556839292003942 <;> norm_num

theorem square_50_1000 :
    roundFloat64 (-((4278419646001971 : ℚ) / 4503599627370496)
        * -(4278419646001971 / 4503599627370496))
      = 8128997327403745 / 9007199254740992 := by
  apply roundFloat64_near (-1) 8128997327403745 <;> norm_num

theorem cube_50_1000 :
    roundFloat64 (-((4278419646001971 : ℚ) / 4503599627370496)
        * (8128997327403745 / 9007199254740992))
      = -(7722547461033557 / 9007199254740992) := by
  have e : -((4278419646001971 : ℚ) / 4503599627370496) * (8128997327403745 / 9007199254740992)
      = -(34779261867861699035706582781395 / 40564819207303340847894502572032) := by norm_num
  rw [e, roundFloat64_neg]
  congr 1
  apply roundFloat64_near (-1) 7722547461033557 <;> norm_num

theorem span_day_six : roundFloat64 (-(518400 : ℚ) + 86400) = -432000 := by
  have e : -(518400 : ℚ) + 86400 = -((432000 : ℕ) : ℚ) := by norm_num
  rw [e, roundFloat64_neg, roundFloat64_natCast_small 432000 (by norm_num)]
  norm_num

theorem product_50_1000 :
    roundFloat64 (-(432000 : ℚ) * -(7722547461033557 / 9007199254740992))
      = 6363183027585023 / 17179869184 := by
  apply roundFloat64_near 18 6363183027585023 <;> norm_num

theorem sum_50_1000 :
    roundFloat64 ((86400 : ℚ) + 6363183027585023 / 17179869184)
      = 7847523725082623 / 17179869184 := by
  apply roundFloat64_near 18 7847523725082623 <;> norm_num

theorem thresholdFloat64_fifty :
    thresholdFloat64 1000 (86400 : ℚ) (518400 : ℚ) 50 false = 7847523725082623 / 17179869184 := by
  have p : roundFloat64 ((50 : ℕ) : ℚ) = 50 := by
    rw [roundFloat64_natCast_small 50 (by norm_num)]
    norm_num
  have b : roundFloat64 ((1000 : ℕ) : ℚ) = 1000 := by
    rw [roundFloat64_natCast_small 1000 (by norm_num)]
    norm_num
  unfold thresholdFloat64
  simp only [Bool.false_eq_true, if_false]
  rw [p, b, quotient_50_1000, shifted_50_1000, square_50_1000, cube_50_1000, span_day_six,
    product_50_1000, sum_50_1000]
  norm_num

/-- Claim C4, as stated, fails, in three ways.  With `min = max` one day, a
thread without posts and without moderation deletion that was bumped
`min + 1` seconds ago is selected for deletion.  With `PruneThreads` off no
thread is selected, not even one whose inactivity of 1000000 seconds is above
its threshold of seven days.  And with bounds of one and six days, a bump
limit of 1000 and 50 posts, the threshold formula has the exact value 456786,
yet a thread inactive for just 456786 seconds is selected: the `float64`
threshold is `7847523725082623 / 2 ^ 34`, a little below. -/
theorem boundary_thread_deleted :
    deleteOldThreads.toDel 1000 ⟨true, 1, 1, false, 0⟩ 1000000
        [⟨7, 1000000 - ((expirySeconds 1 : Nat) + 1), 0, false⟩] = some [7]
    ∧ (thresholdFloat64 1000 (roundFloat64 (expirySeconds 1 : ℚ))
          (roundFloat64 (expirySeconds 7 : ℚ)) 0 false
        < roundFloat64 ((toInt64 (1000000 - 0) : Int) : ℚ)
      ∧ deleteOldThreads.toDel 1000 ⟨false, 1, 7, false, 0⟩ 1000000 [⟨7, 0, 0, false⟩]
          = none)
    ∧ (threshold 1000 (expirySeconds 1 : ℚ) (expirySeconds 6 : ℚ) 50 false = 456786
      ∧ thresholdFloat64 1000 (roundFloat64 (expirySeconds 1 : ℚ))
          (roundFloat64 (expirySeconds 6 : ℚ)) 50 false = 7847523725082623 / 2 ^ 34
      ∧ deleteOldThreads.toDel 1000 ⟨true, 1, 6, false, 0⟩ 1000000
          [⟨7, 1000000 - 456786, 50, false⟩] = some [7]) := by
  have c1 : ((86400 : ℕ) : ℚ) = (86400 : ℚ) := by norm_num
  have c6 : ((518400 : ℕ) : ℚ) = (518400 : ℚ) := by norm_num
  have c7 : ((604800 : ℕ) : ℚ) = (604800 : ℚ) := by norm_num
  refine ⟨?_, ⟨?_, ?_⟩, ?_, ?_, ?_⟩
  · unfold deleteOldThreads.toDel
    simp only [Bool.not_true, Bool.false_eq_true, if_false]
    rw [List.foldl_cons, List.foldl_nil, expirySeconds_one, c1, roundFloat64_86400,
      scanFloat64_select]
    · rfl
    · show thresholdFloat64 1000 (86400 : ℚ) (86400 : ℚ) 0 false
        < roundFloat64 ((toInt64 (1000000 - (1000000 - (((86400 : ℕ) : Int) + 1))) : Int) : ℚ)
      rw [inactivity_86401, roundFloat64_86401]
      exact thresholdFloat64_day_day
  · rw [expirySeconds_one, expirySeconds_seven, c1, c7, roundFloat64_86400, roundFloat64_604800,
      inactivity_1000000, roundFloat64_1000000]
    exact thresholdFloat64_day_week
  · simp [deleteOldThreads.toDel]
  · rw [expirySeconds_one, expirySeconds_six, c1, c6]
    unfold threshold
    norm_num
  · rw [expirySeconds_one, expirySeconds_six, c1, c6, roundFloat64_86400, roundFloat64_518400,
      thresholdFloat64_fifty]
    norm_num
  · unfold deleteOldThreads.toDel
    simp only [Bool.not_true, Bool.false_eq_true, if_false]
    rw [List.foldl_cons, List.foldl_nil, expirySeconds_one, expirySeconds_six, c1, c6,
      roundFloat64_86400, roundFloat64_518400, scanFloat64_select]
    · rfl
    · show thresholdFloat64 1000 (86400 : ℚ) (518400 : ℚ) 50 false
        < roundFloat64 ((toInt64 (1000000 - (1000000 - 456786)) : Int) : ℚ)
      rw [inactivity_456786, roundFloat64_456786, thresholdFloat64_fifty]
      norm_num

/-- Claim C4, amended.  For a bump limit that is not zero: with `PruneThreads`
off there is no list `toDel`.  With `PruneThreads` on, `toDel` holds exactly
the threads whose inactivity `float64(now - bumpTime)` is strictly greater
than their threshold as computed in `float64`, in query order.  And for every
configuration whose `min` is below its `max`, a thread with no posts, no
moderation deletion and `bumpTime = now - (min + 1)` is not selected. -/
theorem deletion_boundary (B : Nat) (conf : Configs) (now : Int) (rows : List ThreadRow)
    (id : Nat) (hB : 0 < B) :
    (conf.PruneThreads = false → deleteOldThreads.toDel B conf now rows = none)
    ∧ (conf.PruneThreads = true →
        deleteOldThreads.toDel B conf now rows
          = some ((rows.filter (fun r =>
              decide (thresholdFloat64 B (roundFloat64 (expirySeconds conf.ThreadExpiryMin : ℚ))
                  (roundFloat64 (expirySeconds conf.ThreadExpiryMax : ℚ)) r.postCount r.deleted
                < roundFloat64 ((toInt64 (now - r.bumpTime) : Int) : ℚ)))).map ThreadRow.id))
    ∧ (expirySeconds conf.ThreadExpiryMin < expirySeconds conf.ThreadExpiryMax →
        deleteOldThreads.toDel B conf now
            [⟨id, now - ((expirySeconds conf.ThreadExpiryMin : Int) + 1), 0, false⟩]
          = if conf.PruneThreads then some [] else none) := by
  refine ⟨?_, ?_, ?_⟩
  · intro hp
    simp [deleteOldThreads.toDel, hp]
  · intro hp
    unfold deleteOldThreads.toDel
    simp only [hp, Bool.not_true, Bool.false_eq_true, if_false]
    rw [foldl_scanFloat64]
    simp
  · intro h
    have hb : expirySeconds conf.ThreadExpiryMin < 2 ^ 64 := by
      unfold expirySeconds toUint64
      exact Nat.mod_lt _ (by norm_num)
    unfold deleteOldThreads.toDel
    cases hp : conf.PruneThreads
    · simp
    · simp only [Bool.not_true, Bool.false_eq_true, if_false, List.foldl_cons, List.foldl_nil,
        if_true]
      rw [boundary_row_kept B now _ _ id [] h hb]

/-- Witness of `deletion_boundary`: bounds of one and seven days. -/
theorem deletion_boundary_witness :
    expirySeconds 1 < expirySeconds 7
    ∧ deleteOldThreads.toDel 1000 ⟨true, 1, 7, false, 0⟩ 1000000
        [⟨7, 1000000 - ((expirySeconds 1 : Int) + 1), 0, false⟩] = some [] :=
  ⟨by decide,
    (deletion_boundary 1000 ⟨true, 1, 7, false, 0⟩ 1000000 [] 7 (by decide)).2.2 (by decide)⟩

/-! ## Purging a post -/

/-- Claim C5.  When `PurgePost` returns without error the transaction is
committed, its first call is the purge query, its last call is the write of
the log entry with type `PurgePost`, the given id, actor and reason and the
board returned by the purge query, and that is the only log entry written.
When any other call fails, its error is the result of the unit, the
transaction is not committed and no log entry is written.  In every case the
transaction is committed exactly when the unit returns without error. -/
theorem PurgePost_atomic {σ : Type} (db : Store σ) (id : Nat) (by_ reason : String) (s : σ) :
    ((PurgePost db id by_ reason s).result = Result.ok →
      (PurgePost db id by_ reason s).committed = true
      ∧ ∃ row, (db.purge_post id s).1 = Except.ok row
        ∧ (PurgePost db id by_ reason s).trace.head? = some (Call.purge_post id, none)
        ∧ (PurgePost db id by_ reason s).trace.getLast?
            = some (Call.log_moderation
                { Type_ := ModerationAction.PurgePost, Length := 0, By := by_, Data := reason,
                  ID := id, Board := row.board }, none)
        ∧ logEntries (PurgePost db id by_ reason s).trace
            = [(Call.log_moderation
                { Type_ := ModerationAction.PurgePost, Length := 0, By := by_, Data := reason,
                  ID := id, Board := row.board }, none)])
    ∧ (∀ c e, (c, some e) ∈ (PurgePost db id by_ reason s).trace → c.isLog = false →
        (PurgePost db id by_ reason s).result = Result.err e
        ∧ (PurgePost db id by_ reason s).committed = false
        ∧ logEntries (PurgePost db id by_ reason s).trace = [])
    ∧ ((PurgePost db id by_ reason s).committed = true
        ↔ (PurgePost db id by_ reason s).result = Result.ok) := by
  unfold PurgePost InTransaction PurgePost.fn logModeration Tx.Exec
  rcases h1 : db.purge_post id s with ⟨_ | row, s1⟩
  · simp [logEntries, Call.isLog]
  · rcases row with ⟨board, hash, ft, tt⟩
    cases hash with
    | none =>
      simp only []
      rcases h2 : db.Exec (Call.delete_post_body id) s1 with ⟨_ | e2, s2⟩
      · rcases h3 : db.Exec (Call.log_moderation
                { Type_ := ModerationAction.PurgePost, Length := 0, By := by_, Data := reason,
                  ID := id, Board := board }) s2 with ⟨_ | e3, s3⟩
        · simp [logEntries, Call.isLog, h2, h3]
        · simp [logEntries, Call.isLog, h2, h3]
      · simp [logEntries, Call.isLog, h2]
    | some hash =>
      simp only []
      rcases h4 : db.Exec (Call.delete_image hash) s1 with ⟨_ | e4, s4⟩
      · cases ft with
        | none => simp [logEntries, Call.isLog, h4]
        | some ft =>
          cases tt with
          | none => simp [logEntries, Call.isLog, h4]
          | some tt =>
            simp only []
            rcases h5 : db.Exec (Call.assets_Delete hash ft tt) s4 with ⟨_ | e5, s5⟩
            · simp only []
              rcases h2 : db.Exec (Call.delete_post_body id) s5 with ⟨_ | e2, s2⟩
              · rcases h3 : db.Exec (Call.log_moderation
                    { Type_ := ModerationAction.PurgePost, Length := 0, By := by_,
                      Data := reason, ID := id, Board := board }) s2 with ⟨_ | e3, s3⟩
                · simp [logEntries, Call.isLog, h2, h3, h4, h5]
                · simp [logEntries, Call.isLog, h2, h3, h4, h5]
              · simp [logEntries, Call.isLog, h2, h4, h5]
            · simp [logEntries, Call.isLog, h4, h5]
      · simp [logEntries, Call.isLog, h4]

/-- Witness of `PurgePost_atomic`: a purge on a store where every call
succeeds, and one on a store where the deletion of the image row fails. -/
theorem PurgePost_atomic_witness :
    ((PurgePost (calmStore ⟨"a", some "h", some 0, some 0⟩ [] []) 5 "mod" "spam" ()).result
        = Result.ok
      ∧ (PurgePost (calmStore ⟨"a", some "h", some 0, some 0⟩ [] []) 5 "mod" "spam"
          ()).committed = true)
    ∧ ((Call.delete_image "h", some (Error.other "delete_image failed"))
        ∈ (PurgePost (imageFailStore ⟨"a", some "h", some 0, some 0⟩) 5 "mod" "spam"
            ()).trace
      ∧ logEntries (PurgePost (imageFailStore ⟨"a", some "h", some 0, some 0⟩) 5 "mod"
          "spam" ()).trace = []) :=
  ⟨⟨by decide,
      ((PurgePost_atomic (calmStore ⟨"a", some "h", some 0, some 0⟩ [] []) 5 "mod" "spam"
        ()).1 (by decide)).1⟩,
    ⟨by decide,
      ((PurgePost_atomic (imageFailStore ⟨"a", some "h", some 0, some 0⟩) 5 "mod" "spam"
        ()).2.1 (Call.delete_image "h") (Error.other "delete_image failed")
        (by decide) (by decide)).2.2⟩⟩

/-! ## Board pruning -/

theorem min_eq (conf : Configs) (now : Int) (h : conf.BoardExpiry ≤ 106751) :
    deleteUnusedBoards.min conf now = now - (conf.BoardExpiry : Int) * 86400 * 1000000000 := by
  unfold deleteUnusedBoards.min toInt64 toUint64 Hour
  omega

theorem foldl_max_ge (bs : List Int) (b : Int) : b ≤ bs.foldl max b := by
  induction bs generalizing b with
  | nil => exact le_rfl
  | cons x xs ih => exact le_trans (le_max_left b x) (ih (max b x))

theorem foldl_max_mem (bs : List Int) (b x : Int) (hx : x ∈ bs) : x ≤ bs.foldl max b := by
  induction bs generalizing b with
  | nil => cases hx
  | cons y ys ih =>
    rcases List.mem_cons.1 hx with h | h
    · subst h
      exact le_trans (le_max_right b x) (foldl_max_ge ys (max b x))
    · exact ih (max b y) h

theorem le_latestBump (threads : List ThreadRec) (t : ThreadRec) (ht : t ∈ threads) :
    t.bump_time ≤ latestBump threads t.board := by
  unfold latestBump
  have hm : t.bump_time ∈ (threads.filter (fun u => u.board == t.board)).map ThreadRec.bump_time :=
    List.mem_map.2 ⟨t, List.mem_filter.2 ⟨ht, by simp⟩, rfl⟩
  generalize (threads.filter (fun u => u.board == t.board)).map ThreadRec.bump_time = l at hm
  cases l with
  | nil => cases hm
  | cons b bs =>
    rcases List.mem_cons.1 hm with h | h
    · rw [h]; exact foldl_max_ge bs b
    · exact foldl_max_mem bs b _ h

theorem latestBump_none (threads : List ThreadRec) (board : String)
    (h : ∀ t ∈ threads, t.board ≠ board) : latestBump threads board = 0 := by
  unfold latestBump
  have : threads.filter (fun t => t.board == board) = [] := by
    apply List.filter_eq_nil_iff.2
    intro t ht
    simpa using h t ht
  rw [this]; rfl

theorem foldl_max_attained (bs : List Int) (b : Int) :
    bs.foldl max b = b ∨ bs.foldl max b ∈ bs := by
  induction bs generalizing b with
  | nil => exact Or.inl rfl
  | cons x xs ih =>
    rw [List.foldl_cons]
    rcases ih (max b x) with h | h
    · rcases max_choice b x with hm | hm
      · left; rw [h, hm]
      · right; rw [h, hm]; exact List.mem_cons_self x xs
    · right; exact List.mem_cons_of_mem x h

theorem latestBump_attained (threads : List ThreadRec) (board : String)
    (h : ∃ t ∈ threads, t.board = board) :
    ∃ t ∈ threads, t.board = board ∧ latestBump threads board = t.bump_time := by
  unfold latestBump
  obtain ⟨t0, ht0, hb0⟩ := h
  have hne : (threads.filter (fun t => t.board == board)).map ThreadRec.bump_time ≠ [] := by
    intro hnil
    have hm : t0.bump_time
        ∈ (threads.filter (fun t => t.board == board)).map ThreadRec.bump_time :=
      List.mem_map.2 ⟨t0, List.mem_filter.2 ⟨ht0, by simp [hb0]⟩, rfl⟩
    rw [hnil] at hm
    cases hm
  have hall : ∀ x ∈ (threads.filter (fun t => t.board == board)).map ThreadRec.bump_time,
      ∃ t ∈ threads, t.board = board ∧ x = t.bump_time := by
    intro x hx
    obtain ⟨t, ht, rfl⟩ := List.mem_map.1 hx
    have := List.mem_filter.1 ht
    exact ⟨t, this.1, by simpa using this.2, rfl⟩
  generalize (threads.filter (fun t => t.board == board)).map ThreadRec.bump_time = l
    at hne hall
  cases l with
  | nil => exact absurd rfl hne
  | cons b bs =>
    simp only []
    rcases foldl_max_attained bs b with hm | hm
    · rw [hm]; exact hall b (List.mem_cons_self b bs)
    · exact hall _ (List.mem_cons_of_mem b hm)

theorem loop_ok {σ : Type} (db : Store σ) (bs : List String) (tx : Tx σ)
    (h : (deleteUnusedBoards.loop db bs tx).1 = Result.ok) :
    (deleteUnusedBoards.loop db bs tx).2.trace = tx.trace ++ bs.flatMap pruneCalls := by
  induction bs generalizing tx with
  | nil => simp [deleteUnusedBoards.loop]
  | cons b bs ih =>
    unfold deleteUnusedBoards.loop deleteBoard logModeration Tx.Exec at h ⊢
    rcases h1 : db.Exec (Call.delete_board b) tx.state with ⟨_ | e1, s1⟩
    · simp only [h1] at h ⊢
      rcases h2 : db.Exec (Call.log_moderation
          { Type_ := ModerationAction.DeleteBoard, Length := 0, By := "system",
            Data := "board " ++ b ++ " deleted for inactivity", ID := 0, Board := "all" }) s1
        with ⟨_ | e2, s2⟩
      · simp only [h2] at h ⊢
        rw [ih _ h]
        simp [pruneCalls]
      · simp [h2] at h
    · simp [h1] at h

theorem loop_total {σ : Type} (db : Store σ) (bs : List String) (tx : Tx σ)
    (h : ∀ c st, (db.Exec c st).1 = none) :
    (deleteUnusedBoards.loop db bs tx).1 = Result.ok := by
  induction bs generalizing tx with
  | nil => simp [deleteUnusedBoards.loop]
  | cons b bs ih =>
    unfold deleteUnusedBoards.loop deleteBoard logModeration Tx.Exec
    have h1 := h (Call.delete_board b) tx.state
    rcases hh1 : db.Exec (Call.delete_board b) tx.state with ⟨r1, s1⟩
    rw [hh1] at h1
    simp only at h1
    subst h1
    simp only []
    have h2 := h (Call.log_moderation
          { Type_ := ModerationAction.DeleteBoard, Length := 0, By := "system",
            Data := "board " ++ b ++ " deleted for inactivity", ID := 0, Board := "all" }) s1
    rcases hh2 : db.Exec (Call.log_moderation
          { Type_ := ModerationAction.DeleteBoard, Length := 0, By := "system",
            Data := "board " ++ b ++ " deleted for inactivity", ID := 0, Board := "all" }) s1
      with ⟨r2, s2⟩
    rw [hh2] at h2
    simp only at h2
    subst h2
    simp only []
    exact ih _

theorem mem_query (boards : List BoardRow) (threads : List ThreadRec) (min : Int) (b : String) :
    b ∈ deleteUnusedBoards.query boards threads min
      ↔ ∃ row ∈ boards, row.id = b ∧ b ≠ "all" ∧ row.created < min
          ∧ latestBump threads b < Unix min := by
  unfold deleteUnusedBoards.query
  simp only [List.mem_map, List.mem_filter, Bool.and_eq_true, decide_eq_true_eq, bne_iff_ne]
  constructor
  · rintro ⟨row, ⟨hrow, ⟨h1, h2⟩, h3⟩, rfl⟩
    exact ⟨row, hrow, rfl, h2, h1, h3⟩
  · rintro ⟨row, hrow, rfl, h2, h1, h3⟩
    exact ⟨row, ⟨hrow, ⟨h1, h2⟩, h3⟩, rfl⟩

theorem mem_flatMap_pruneCalls (bs : List String) (b : String) :
    (Call.delete_board b, (none : Option Error)) ∈ bs.flatMap pruneCalls ↔ b ∈ bs := by
  simp [List.mem_flatMap, pruneCalls]

/-- Claim C6, as stated, fails, in three ways.  Under a 30-day expiry a board
created 31 days ago whose only thread was bumped 31 days ago is not deleted
when the write of its log entry fails: the run returns the error and is not
committed.  Under a 30-day expiry and a clock half a second past a whole
second, a board whose only thread was bumped in the second of the cutoff,
hence before `now - 30 days`, is kept.  And with an expiry of 106752 days the
duration wraps around in `int64`, the cutoff lies in the future, and a board
created now whose thread was bumped now is deleted. -/
theorem deleteUnusedBoards_not_as_claimed :
    (((1697321600000000000 : Int) < 1700000000000000000 - 30 * 86400 * 1000000000
        ∧ (1697321600 * 1000000000 : Int) < 1700000000000000000 - 30 * 86400 * 1000000000)
      ∧ (deleteUnusedBoards
          (logFailStore [⟨"old", 1697321600000000000⟩] [⟨"old", 1697321600⟩])
          ⟨false, 0, 0, true, 30⟩ 1700000000000000000 ()).result
          = Result.err (Error.other "log_moderation failed")
      ∧ (deleteUnusedBoards
          (logFailStore [⟨"old", 1697321600000000000⟩] [⟨"old", 1697321600⟩])
          ⟨false, 0, 0, true, 30⟩ 1700000000000000000 ()).committed = false)
    ∧ (((1697321600000000000 : Int) < 1700000000500000000 - 30 * 86400 * 1000000000
        ∧ (1697408000 * 1000000000 : Int) < 1700000000500000000 - 30 * 86400 * 1000000000)
      ∧ (deleteUnusedBoards
          (calmStore ⟨"a", none, none, none⟩
            [⟨"edge", 1697321600000000000⟩] [⟨"edge", 1697408000⟩])
          ⟨false, 0, 0, true, 30⟩ 1700000000500000000 ()).result = Result.ok
      ∧ (deleteUnusedBoards
          (calmStore ⟨"a", none, none, none⟩
            [⟨"edge", 1697321600000000000⟩] [⟨"edge", 1697408000⟩])
          ⟨false, 0, 0, true, 30⟩ 1700000000500000000 ()).trace = [])
    ∧ ((deleteUnusedBoards
          (calmStore ⟨"a", none, none, none⟩
            [⟨"a", 1700000000000000000⟩] [⟨"a", 1700000000⟩])
          ⟨false, 0, 0, true, 106752⟩ 1700000000000000000 ()).committed = true
      ∧ (Call.delete_board "a", (none : Option Error))
          ∈ (deleteUnusedBoards
              (calmStore ⟨"a", none, none, none⟩
                [⟨"a", 1700000000000000000⟩] [⟨"a", 1700000000⟩])
              ⟨false, 0, 0, true, 106752⟩ 1700000000000000000 ()).trace) := by
  set_option maxRecDepth 10000 in
  decide

/-- Claim C6, amended.  With `PruneBoards` off no call is issued.  A run that
returns an error is not committed.  With `PruneBoards` on, an expiry of
`N ≤ 106751` days and a board query that reads `boards` and `threads`, the
run returns without error whenever no call fails, and when it returns without
error it is committed and its calls are, for each board selected by the
query, the deletion followed by one log entry of type `DeleteBoard` on board
"all" by "system".  A board is deleted exactly when its id is not "all", it
was created before `now - N days` and its latest bump time is below that
cutoff in Unix seconds; a board with a thread bumped at or after the cutoff
is not deleted.  The latest bump time of a board is 0 when it has no thread,
and otherwise the bump time of one of its threads that none of them
exceeds. -/
theorem deleteUnusedBoards_prunes {σ : Type} (db : Store σ) (conf : Configs) (now : Int)
    (s : σ) :
    (conf.PruneBoards = false →
      (deleteUnusedBoards db conf now s).result = Result.ok
      ∧ (deleteUnusedBoards db conf now s).trace = [])
    ∧ ((deleteUnusedBoards db conf now s).result ≠ Result.ok →
        (deleteUnusedBoards db conf now s).committed = false)
    ∧ (conf.PruneBoards = true → conf.BoardExpiry ≤ 106751 →
        ∀ (boards : List BoardRow) (threads : List ThreadRec),
        db.tables s = Except.ok (boards, threads) →
        ((∀ c st, (db.Exec c st).1 = none) →
          (deleteUnusedBoards db conf now s).result = Result.ok)
        ∧ ((deleteUnusedBoards db conf now s).result = Result.ok →
          (deleteUnusedBoards db conf now s).committed = true
          ∧ (deleteUnusedBoards db conf now s).trace
              = (deleteUnusedBoards.query boards threads
                  (now - (conf.BoardExpiry : Int) * 86400 * 1000000000)).flatMap pruneCalls
          ∧ (∀ b, (Call.delete_board b, (none : Option Error))
                  ∈ (deleteUnusedBoards db conf now s).trace
              ↔ ∃ row ∈ boards, row.id = b ∧ b ≠ "all"
                  ∧ row.created < now - (conf.BoardExpiry : Int) * 86400 * 1000000000
                  ∧ latestBump threads b
                      < Unix (now - (conf.BoardExpiry : Int) * 86400 * 1000000000))
          ∧ (∀ t ∈ threads,
              Unix (now - (conf.BoardExpiry : Int) * 86400 * 1000000000) ≤ t.bump_time →
              (Call.delete_board t.board, (none : Option Error))
                ∉ (deleteUnusedBoards db conf now s).trace)))
    ∧ (∀ (threads : List ThreadRec) (b : String),
        ((∀ t ∈ threads, t.board ≠ b) → latestBump threads b = 0)
        ∧ ((∃ t ∈ threads, t.board = b) →
            (∃ t ∈ threads, t.board = b ∧ latestBump threads b = t.bump_time)
            ∧ ∀ t ∈ threads, t.board = b → t.bump_time ≤ latestBump threads b)) := by
  refine ⟨?_, ?_, ?_, ?_⟩
  rotate_right
  · intro threads b
    refine ⟨latestBump_none threads b, fun h => ⟨latestBump_attained threads b h, ?_⟩⟩
    intro t ht hb
    have := le_latestBump threads t ht
    rwa [hb] at this
  · intro hp
    simp [deleteUnusedBoards, hp]
  · intro hne
    unfold deleteUnusedBoards InTransaction at hne ⊢
    by_cases hp : conf.PruneBoards = true
    · simp only [hp, Bool.not_true, Bool.false_eq_true, if_false] at hne ⊢
      rcases hr : deleteUnusedBoards.fn db (deleteUnusedBoards.min conf now)
          { state := s, trace := [] } with ⟨r, tx⟩
      rw [hr] at hne
      cases r with
      | ok => simp at hne
      | err e => rfl
      | panic => rfl
    · simp [hp]
  · intro hp hN boards threads htab
    have hrun : deleteUnusedBoards db conf now s
        = InTransaction (deleteUnusedBoards.fn db
            (now - (conf.BoardExpiry : Int) * 86400 * 1000000000)) s := by
      simp [deleteUnusedBoards, hp, min_eq conf now hN]
    have hfn : deleteUnusedBoards.fn db
          (now - (conf.BoardExpiry : Int) * 86400 * 1000000000) { state := s, trace := [] }
        = deleteUnusedBoards.loop db (deleteUnusedBoards.query boards threads
            (now - (conf.BoardExpiry : Int) * 86400 * 1000000000)) { state := s, trace := [] } := by
      simp [deleteUnusedBoards.fn, htab]
    rw [hrun]
    unfold InTransaction
    rw [hfn]
    generalize hq : deleteUnusedBoards.query boards threads
            (now - (conf.BoardExpiry : Int) * 86400 * 1000000000) = q
    have hok := loop_ok db q { state := s, trace := [] }
    have htot := loop_total db q { state := s, trace := [] }
    rcases hl : deleteUnusedBoards.loop db q { state := s, trace := [] } with ⟨r, tx⟩
    rw [hl] at hok htot
    simp only [List.nil_append] at hok
    cases r with
    | ok =>
      have htr := hok rfl
      refine ⟨fun _ => rfl, fun _ => ⟨rfl, htr, ?_, ?_⟩⟩
      · intro b
        simp only []
        rw [htr, mem_flatMap_pruneCalls, ← hq, mem_query]
      · intro t ht hbump
        simp only []
        rw [htr, mem_flatMap_pruneCalls, ← hq, mem_query]
        rintro ⟨row, _, _, _, _, hlt⟩
        exact absurd (le_trans hbump (le_latestBump threads t ht)) (not_le.2 hlt)
    | err e =>
      refine ⟨fun h => ?_, fun h => ?_⟩
      · exact absurd (htot h) (by simp)
      · simp at h
    | panic =>
      refine ⟨fun h => ?_, fun h => ?_⟩
      · exact absurd (htot h) (by simp)
      · simp at h

/-- Witness of `deleteUnusedBoards_prunes`: a 30-day expiry, a board created
31 days ago whose only thread was bumped 31 days ago, and a board of the same
age with a thread bumped recently. -/
theorem deleteUnusedBoards_prunes_witness :
    (30 ≤ 106751)
    ∧ (Call.delete_board "old", (none : Option Error))
        ∈ (deleteUnusedBoards
            (calmStore ⟨"a", none, none, none⟩
              [⟨"old", 1697321600000000000⟩, ⟨"live", 1697321600000000000⟩]
              [⟨"old", 1697321600⟩, ⟨"live", 1699990000⟩])
            ⟨false, 0, 0, true, 30⟩ 1700000000000000000 ()).trace
    ∧ (Call.delete_board "live", (none : Option Error))
        ∉ (deleteUnusedBoards
            (calmStore ⟨"a", none, none, none⟩
              [⟨"old", 1697321600000000000⟩, ⟨"live", 1697321600000000000⟩]
              [⟨"old", 1697321600⟩, ⟨"live", 1699990000⟩])
            ⟨false, 0, 0, true, 30⟩ 1700000000000000000 ()).trace :=
  ⟨by decide,
    (((((deleteUnusedBoards_prunes
        (calmStore ⟨"a", none, none, none⟩
          [⟨"old", 1697321600000000000⟩, ⟨"live", 1697321600000000000⟩]
          [⟨"old", 1697321600⟩, ⟨"live", 1699990000⟩])
        ⟨false, 0, 0, true, 30⟩ 1700000000000000000 ()).2.2.1 rfl (by decide) _ _ rfl).2
          (by set_option maxRecDepth 10000 in decide)).2.2.1 "old").2
      ⟨⟨"old", 1697321600000000000⟩, by simp, rfl, by decide, by decide,
        by set_option maxRecDepth 10000 in decide⟩),
    ((((deleteUnusedBoards_prunes
        (calmStore ⟨"a", none, none, none⟩
          [⟨"old", 1697321600000000000⟩, ⟨"live", 1697321600000000000⟩]
          [⟨"old", 1697321600⟩, ⟨"live", 1699990000⟩])
        ⟨false, 0, 0, true, 30⟩ 1700000000000000000 ()).2.2.1 rfl (by decide) _ _ rfl).2
          (by set_option maxRecDepth 10000 in decide)).2.2.2
      ⟨"live", 1699990000⟩ (by simp) (by decide))⟩

/-! ## Dangling open posts -/

theorem loop_cons_close {L C : Type}
    (ParseBody : String → String → List L × List C × Option Error)
    (ClosePost : CloseCall L C → Option Error)
    (p : closeDanglingPosts.post) (ps : List closeDanglingPosts.post)
    (ht : tolerated (ParseBody p.body p.board).2.2 = true)
    (hc : ClosePost (closeCallOf ParseBody p) = none) :
    closeDanglingPosts.loop ParseBody ClosePost (p :: ps)
      = ((closeDanglingPosts.loop ParseBody ClosePost ps).1,
          closeCallOf ParseBody p :: (closeDanglingPosts.loop ParseBody ClosePost ps).2) := by
  unfold closeCallOf at hc
  rw [closeDanglingPosts.loop]
  rcases hp : ParseBody p.body p.board with ⟨links, com, err⟩
  rw [hp] at ht hc
  simp only at ht hc
  cases err with
  | none => simp [hc, closeCallOf, hp]
  | some e =>
    cases e with
    | StatusError msg Code =>
      have h400 : Code = 400 := by simpa [tolerated] using ht
      simp [hc, closeCallOf, hp, h400]
    | other msg => simp [tolerated] at ht

theorem loop_cons_abort {L C : Type}
    (ParseBody : String → String → List L × List C × Option Error)
    (ClosePost : CloseCall L C → Option Error)
    (p : closeDanglingPosts.post) (ps : List closeDanglingPosts.post) (e : Error)
    (he : (ParseBody p.body p.board).2.2 = some e)
    (ht : tolerated (some e) = false) :
    closeDanglingPosts.loop ParseBody ClosePost (p :: ps) = (some e, []) := by
  rw [closeDanglingPosts.loop]
  rcases hp : ParseBody p.body p.board with ⟨links, com, err⟩
  rw [hp] at he
  simp only at he
  subst he
  cases e with
  | StatusError msg Code =>
    have h400 : ¬ Code = 400 := by simpa [tolerated] using ht
    simp [h400]
  | other msg => simp

theorem loop_cons_fail {L C : Type}
    (ParseBody : String → String → List L × List C × Option Error)
    (ClosePost : CloseCall L C → Option Error)
    (p : closeDanglingPosts.post) (ps : List closeDanglingPosts.post) (e : Error)
    (ht : tolerated (ParseBody p.body p.board).2.2 = true)
    (hc : ClosePost (closeCallOf ParseBody p) = some e) :
    closeDanglingPosts.loop ParseBody ClosePost (p :: ps)
      = (some e, [closeCallOf ParseBody p]) := by
  unfold closeCallOf at hc
  rw [closeDanglingPosts.loop]
  rcases hp : ParseBody p.body p.board with ⟨links, com, err⟩
  rw [hp] at ht hc
  simp only at ht hc
  cases err with
  | none => simp [hc, closeCallOf, hp]
  | some e =>
    cases e with
    | StatusError msg Code =>
      have h400 : Code = 400 := by simpa [tolerated] using ht
      simp [hc, closeCallOf, hp, h400]
    | other msg => simp [tolerated] at ht

theorem loop_all {L C : Type}
    (ParseBody : String → String → List L × List C × Option Error)
    (ClosePost : CloseCall L C → Option Error)
    (posts : List closeDanglingPosts.post)
    (h : ∀ p ∈ posts, tolerated (ParseBody p.body p.board).2.2 = true
        ∧ ClosePost (closeCallOf ParseBody p) = none) :
    closeDanglingPosts.loop ParseBody ClosePost posts
      = (none, posts.map (closeCallOf ParseBody)) := by
  induction posts with
  | nil => simp [closeDanglingPosts.loop]
  | cons p ps ih =>
    have hp := h p (List.mem_cons_self p ps)
    rw [loop_cons_close ParseBody ClosePost p ps hp.1 hp.2,
      ih (fun q hq => h q (List.mem_cons_of_mem p hq))]
    simp

theorem loop_stop {L C : Type}
    (ParseBody : String → String → List L × List C × Option Error)
    (ClosePost : CloseCall L C → Option Error)
    (pre : List closeDanglingPosts.post) (p : closeDanglingPosts.post)
    (rest : List closeDanglingPosts.post) (e : Error)
    (h : ∀ q ∈ pre, tolerated (ParseBody q.body q.board).2.2 = true
        ∧ ClosePost (closeCallOf ParseBody q) = none)
    (he : (ParseBody p.body p.board).2.2 = some e)
    (ht : tolerated (some e) = false) :
    closeDanglingPosts.loop ParseBody ClosePost (pre ++ p :: rest)
      = (some e, pre.map (closeCallOf ParseBody)) := by
  induction pre with
  | nil => simpa using loop_cons_abort ParseBody ClosePost p rest e he ht
  | cons q qs ih =>
    have hq := h q (List.mem_cons_self q qs)
    rw [List.cons_append, loop_cons_close ParseBody ClosePost q _ hq.1 hq.2,
      ih (fun r hr => h r (List.mem_cons_of_mem q hr))]
    simp

theorem loop_fail {L C : Type}
    (ParseBody : String → String → List L × List C × Option Error)
    (ClosePost : CloseCall L C → Option Error)
    (pre : List closeDanglingPosts.post) (p : closeDanglingPosts.post)
    (rest : List closeDanglingPosts.post) (e : Error)
    (h : ∀ q ∈ pre, tolerated (ParseBody q.body q.board).2.2 = true
        ∧ ClosePost (closeCallOf ParseBody q) = none)
    (ht : tolerated (ParseBody p.body p.board).2.2 = true)
    (hc : ClosePost (closeCallOf ParseBody p) = some e) :
    closeDanglingPosts.loop ParseBody ClosePost (pre ++ p :: rest)
      = (some e, pre.map (closeCallOf ParseBody) ++ [closeCallOf ParseBody p]) := by
  induction pre with
  | nil => simpa using loop_cons_fail ParseBody ClosePost p rest e ht hc
  | cons q qs ih =>
    have hq := h q (List.mem_cons_self q qs)
    rw [List.cons_append, loop_cons_close ParseBody ClosePost q _ hq.1 hq.2,
      ih (fun r hr => h r (List.mem_cons_of_mem q hr))]
    simp

/-- Claim C7, as stated, fails: when the parser returns a link and a command
together with a `StatusError` of code 400, the post is closed with that link
and that command, not without derived artifacts. -/
theorem closeDanglingPosts_keeps_artifacts :
    closeDanglingPosts partialParseBody (fun (_ : CloseCall Nat Nat) => none)
        (Except.ok [⟨2, "a", "bad"⟩])
      = (none, [{ id := 2, board := "a", body := "bad", links := [1], com := [2] }])
    ∧ partialParseBody "bad" "a" = ([1], [2], some (Error.StatusError "invalid input" 400)) := by
  constructor
  · simp [closeDanglingPosts, closeDanglingPosts.loop, partialParseBody]
  · simp [partialParseBody]

/-- Claim C7, amended.  If every selected post parses, or fails with a
`StatusError` of code 400, and every `ClosePost` succeeds, the sweep returns
no error and closes every post, in order, with the links and commands the
parser returned for it; for a post whose parse fails with code 400 these are
the links and commands the parser returned together with that error.  If the
parse of a post fails with any other error, after posts that were all closed,
the sweep returns that error unchanged and has closed only the posts before
it.  (If `ClosePost` itself fails on a post, the sweep returns that error
after the call.) -/
theorem closeDanglingPosts_sweep {L C : Type}
    (ParseBody : String → String → List L × List C × Option Error)
    (ClosePost : CloseCall L C → Option Error) :
    (∀ posts : List closeDanglingPosts.post,
      (∀ p ∈ posts, tolerated (ParseBody p.body p.board).2.2 = true
          ∧ ClosePost (closeCallOf ParseBody p) = none) →
      closeDanglingPosts ParseBody ClosePost (Except.ok posts)
        = (none, posts.map (closeCallOf ParseBody)))
    ∧ (∀ (p : closeDanglingPosts.post) (links : List L) (com : List C) (err : Option Error),
        ParseBody p.body p.board = (links, com, err) →
        (closeCallOf ParseBody p : CloseCall L C)
          = { id := p.id, board := p.board, body := p.body, links := links, com := com })
    ∧ (∀ (pre : List closeDanglingPosts.post) (p : closeDanglingPosts.post)
        (rest : List closeDanglingPosts.post) (e : Error),
        (∀ q ∈ pre, tolerated (ParseBody q.body q.board).2.2 = true
          ∧ ClosePost (closeCallOf ParseBody q) = none) →
        (ParseBody p.body p.board).2.2 = some e →
        tolerated (some e) = false →
        closeDanglingPosts ParseBody ClosePost (Except.ok (pre ++ p :: rest))
          = (some e, pre.map (closeCallOf ParseBody)))
    ∧ (∀ (pre : List closeDanglingPosts.post) (p : closeDanglingPosts.post)
        (rest : List closeDanglingPosts.post) (e : Error),
        (∀ q ∈ pre, tolerated (ParseBody q.body q.board).2.2 = true
          ∧ ClosePost (closeCallOf ParseBody q) = none) →
        tolerated (ParseBody p.body p.board).2.2 = true →
        ClosePost (closeCallOf ParseBody p) = some e →
        closeDanglingPosts ParseBody ClosePost (Except.ok (pre ++ p :: rest))
          = (some e, pre.map (closeCallOf ParseBody) ++ [closeCallOf ParseBody p]))
    ∧ (tolerated none = true
        ∧ (∀ msg, tolerated (some (Error.StatusError msg 400)) = true)
        ∧ (∀ msg Code, Code ≠ 400 → tolerated (some (Error.StatusError msg Code)) = false)
        ∧ (∀ msg, tolerated (some (Error.other msg)) = false)) := by
  refine ⟨?_, ?_, ?_, ?_, ?_⟩
  · intro posts h
    exact loop_all ParseBody ClosePost posts h
  · intro p links com err he
    simp [closeCallOf, he]
  · intro pre p rest e h he ht
    exact loop_stop ParseBody ClosePost pre p rest e h he ht
  · intro pre p rest e h ht hc
    exact loop_fail ParseBody ClosePost pre p rest e h ht hc
  · refine ⟨rfl, fun _ => by simp [tolerated], fun _ Code h => by simp [tolerated, h],
      fun _ => rfl⟩

/-- Witness of `closeDanglingPosts_sweep`: a post that parses, a post with
bad input, a post on which the parser fails otherwise, and a post after it. -/
theorem closeDanglingPosts_sweep_witness :
    closeDanglingPosts sampleParseBody (fun (_ : CloseCall Nat Nat) => none)
        (Except.ok ([⟨1, "a", "text"⟩, ⟨2, "a", "bad"⟩] ++ ⟨3, "a", "boom"⟩ :: [⟨4, "a", "text"⟩]))
      = (some (Error.other "parser failure"),
          [⟨1, "a", "text"⟩, ⟨2, "a", "bad"⟩].map (closeCallOf sampleParseBody))
    ∧ (closeCallOf partialParseBody ⟨2, "a", "bad"⟩ : CloseCall Nat Nat)
        = { id := 2, board := "a", body := "bad", links := [1], com := [2] } :=
  ⟨(closeDanglingPosts_sweep sampleParseBody (fun (_ : CloseCall Nat Nat) => none)).2.2.1
      [⟨1, "a", "text"⟩, ⟨2, "a", "bad"⟩] ⟨3, "a", "boom"⟩ [⟨4, "a", "text"⟩]
      (Error.other "parser failure")
      (by decide) (by decide) (by decide),
    (closeDanglingPosts_sweep partialParseBody (fun (_ : CloseCall Nat Nat) => none)).2.1
      ⟨2, "a", "bad"⟩ [1] [2] (some (Error.StatusError "invalid input" 400)) (by decide)⟩

/-! ## Scheduler -/

theorem logError_invoked {σ : Type} (label : String) (r : Option Error × Upkeep σ) :
    (logError label r).invoked = r.2.invoked := by
  unfold logError
  cases r.1 <;> rfl

theorem run_invoked {σ : Type} (tasks : Task → σ → Option Error × σ) (t : Task)
    (u : Upkeep σ) : (Upkeep.run tasks t u).2.invoked = u.invoked ++ [t] := rfl

theorem runHourTasks_invoked {σ : Type} (ImagerMode : ImagerModeType)
    (tasks : Task → σ → Option Error × σ) (u : Upkeep σ) :
    (runHourTasks ImagerMode tasks u).invoked = u.invoked ++ taskSet ImagerMode Tick.hour := by
  cases ImagerMode <;>
    simp [runHourTasks, taskSet, logError_invoked, run_invoked]

theorem select_invoked {σ : Type} (ImagerMode : ImagerModeType)
    (tasks : Task → σ → Option Error × σ) (tick : Tick) (u : Upkeep σ) :
    (runCleanupTasks.select ImagerMode tasks tick u).invoked
      = u.invoked ++ taskSet ImagerMode tick := by
  cases tick
  · simp [runCleanupTasks.select, taskSet, logError_invoked, run_invoked]
  · cases ImagerMode <;>
      simp [runCleanupTasks.select, taskSet, logError_invoked, run_invoked]
  · exact runHourTasks_invoked ImagerMode tasks u

theorem runCleanupTasks_invoked {σ : Type} (ImagerMode : ImagerModeType)
    (tasks : Task → σ → Option Error × σ) (ticks : List Tick) (u : Upkeep σ) :
    (runCleanupTasks ImagerMode tasks ticks u).invoked
      = u.invoked ++ ticks.flatMap (taskSet ImagerMode) := by
  unfold runCleanupTasks
  induction ticks generalizing u with
  | nil => simp
  | cons t ts ih =>
    rw [List.foldl_cons, ih, select_invoked]
    simp

theorem logError_run {σ : Type} (tasks : Task → σ → Option Error × σ) (label : String)
    (t : Task) (u : Upkeep σ) :
    logError label (Upkeep.run tasks t u) = isolatedRun tasks u (label, t) := by
  unfold logError Upkeep.run isolatedRun
  cases h : (tasks t u.state).1 <;> simp [h]

theorem runHourTasks_isolated {σ : Type} (ImagerMode : ImagerModeType)
    (tasks : Task → σ → Option Error × σ) (u : Upkeep σ) :
    runHourTasks ImagerMode tasks u
      = (labelledTaskSet ImagerMode Tick.hour).foldl (isolatedRun tasks) u := by
  cases ImagerMode <;> simp [runHourTasks, labelledTaskSet, logError_run]

theorem select_isolated {σ : Type} (ImagerMode : ImagerModeType)
    (tasks : Task → σ → Option Error × σ) (tick : Tick) (u : Upkeep σ) :
    runCleanupTasks.select ImagerMode tasks tick u
      = (labelledTaskSet ImagerMode tick).foldl (isolatedRun tasks) u := by
  cases tick
  · simp [runCleanupTasks.select, labelledTaskSet, logError_run]
  · cases ImagerMode <;> simp [runCleanupTasks.select, labelledTaskSet, logError_run]
  · exact runHourTasks_isolated ImagerMode tasks u

theorem runCleanupTasks_isolated {σ : Type} (ImagerMode : ImagerModeType)
    (tasks : Task → σ → Option Error × σ) (ticks : List Tick) (u : Upkeep σ) :
    runCleanupTasks ImagerMode tasks ticks u
      = (ticks.flatMap (labelledTaskSet ImagerMode)).foldl (isolatedRun tasks) u := by
  unfold runCleanupTasks
  induction ticks generalizing u with
  | nil => simp
  | cons t ts ih =>
    rw [List.foldl_cons, ih, select_isolated, List.flatMap_cons, List.foldl_append]

/-- Claim C8.  Whatever the tasks return, one run of `runHourTasks` invokes, in
order, `removeIdentityInfo`, `deleteOldThreads`, `deleteUnusedBoards` and
`vacuum` unless the mode is `ImagerOnly`, then `deleteUnusedImages` unless the
mode is `NoImager`; the handlers of the second and minute triggers invoke
their whole task sets; and the loop handles every trigger it receives, so the
tasks invoked depend on the mode and the triggers alone.  Moreover the whole
outcome of `runHourTasks`, of each handler and of the loop is that of running
the tasks of the mode's task sets one after the other in isolation: each task
acts on the state left by the one before, and an error it returns is recorded
in the log under the task's label and changes nothing else. -/
theorem failure_isolation {σ : Type} (ImagerMode : ImagerModeType)
    (tasks : Task → σ → Option Error × σ) (ticks : List Tick) (u : Upkeep σ) :
    (runHourTasks ImagerMode tasks u).invoked
        = u.invoked
          ++ (if ImagerMode = ImagerModeType.ImagerOnly then []
              else [Task.removeIdentityInfo, Task.deleteOldThreads, Task.deleteUnusedBoards,
                Task.vacuum])
          ++ (if ImagerMode = ImagerModeType.NoImager then [] else [Task.deleteUnusedImages])
    ∧ (runCleanupTasks.select ImagerMode tasks Tick.sec u).invoked
        = u.invoked ++ [Task.FlushOpenPostBodies, Task.syncSpamScores]
    ∧ (runCleanupTasks.select ImagerMode tasks Tick.min u).invoked
        = u.invoked ++ taskSet ImagerMode Tick.min
    ∧ (runCleanupTasks ImagerMode tasks ticks u).invoked
        = u.invoked ++ ticks.flatMap (taskSet ImagerMode)
    ∧ (∀ (label : String) (t : Task),
        logError label (Upkeep.run tasks t u)
          = { state := (tasks t u.state).2
              invoked := u.invoked ++ [t]
              logged := u.logged ++
                (match (tasks t u.state).1 with
                  | none => []
                  | some e => [(label, e)]) })
    ∧ runHourTasks ImagerMode tasks u
        = (labelledTaskSet ImagerMode Tick.hour).foldl (isolatedRun tasks) u
    ∧ (∀ tick, runCleanupTasks.select ImagerMode tasks tick u
        = (labelledTaskSet ImagerMode tick).foldl (isolatedRun tasks) u)
    ∧ runCleanupTasks ImagerMode tasks ticks u
        = (ticks.flatMap (labelledTaskSet ImagerMode)).foldl (isolatedRun tasks) u := by
  refine ⟨?_, ?_, ?_, ?_, ?_, ?_, ?_, ?_⟩
  · rw [runHourTasks_invoked]; simp [taskSet]
  · rw [select_invoked]; rfl
  · rw [select_invoked]
  · exact runCleanupTasks_invoked ImagerMode tasks ticks u
  · intro label t
    exact logError_run tasks label t u
  · exact runHourTasks_isolated ImagerMode tasks u
  · intro tick
    exact select_isolated ImagerMode tasks tick u
  · exact runCleanupTasks_isolated ImagerMode tasks ticks u

/-- Claim C9, as stated, fails: in mode `ImagerOnly` the minute trigger still
runs the expired-row cleanup. -/
theorem minute_cleanup_in_ImagerOnly :
    (runCleanupTasks.select ImagerModeType.ImagerOnly
        (fun (_ : Task) (s : Unit) => ((none : Option Error), s)) Tick.min
        { state := (), invoked := [], logged := [] }).invoked
      = [Task.clean_up_expiries] := by
  decide

/-- Claim C9, amended.  In every mode the minute trigger runs the expired-row
cleanup; before it, it runs the reconciliation of dangling open posts unless
the mode is `ImagerOnly`. -/
theorem minute_task_set {σ : Type} (ImagerMode : ImagerModeType)
    (tasks : Task → σ → Option Error × σ) (u : Upkeep σ) :
    (runCleanupTasks.select ImagerMode tasks Tick.min u).invoked
      = u.invoked
        ++ (if ImagerMode = ImagerModeType.ImagerOnly then [] else [Task.closeDanglingPosts])
        ++ [Task.clean_up_expiries] := by
  rw [select_invoked]; simp [taskSet]

/-! ## Permission errors -/

theorem castPermissionError_translated (exception : Error → String) (ErrNoPermissions : Error)
    (err : Option Error) :
    PermissionTranslated exception ErrNoPermissions err
      (castPermissionError exception ErrNoPermissions err) := by
  unfold PermissionTranslated castPermissionError
  by_cases h : extractException exception err = "access denied"
  · simp [h]
  · simp [h]

/-- Claim C10.  For `DeleteImages`, `ModSpoilerImages`, `DeletePosts`,
`DeletePostsByIP` and `GetSameIPPosts` the returned error is
`ErrNoPermissions` exactly when the error of the store carries the exception
text "access denied" or already was that error; every other error of the
store is returned unchanged, and so is the nil error. -/
theorem permission_translation (exception : Error → String) (ErrNoPermissions : Error)
    (Exec : Query → Option Error) (QueryRow : Query → List Nat × Option Error) :
    (∀ ids by_, PermissionTranslated exception ErrNoPermissions
        (Exec (Query.delete_images ids by_))
        (DeleteImages Exec exception ErrNoPermissions ids by_))
    ∧ (∀ ids by_, PermissionTranslated exception ErrNoPermissions
        (Exec (Query.spoiler_images ids by_))
        (ModSpoilerImages Exec exception ErrNoPermissions ids by_))
    ∧ (∀ ids by_, PermissionTranslated exception ErrNoPermissions
        (Exec (Query.delete_posts ids by_))
        (DeletePosts Exec exception ErrNoPermissions ids by_))
    ∧ (∀ id account keepDeleting reason, PermissionTranslated exception ErrNoPermissions
        (Exec (Query.delete_posts_by_ip id account
          (if keepDeleting ≠ 0 then Int.tdiv keepDeleting 1000000000 else 0) reason))
        (DeletePostsByIP Exec exception ErrNoPermissions id account keepDeleting reason))
    ∧ (∀ id by_, PermissionTranslated exception ErrNoPermissions
        (QueryRow (Query.get_same_ip_posts id by_)).2
        (GetSameIPPosts QueryRow exception ErrNoPermissions id by_).2)
    ∧ castPermissionError exception ErrNoPermissions none = none := by
  refine ⟨?_, ?_, ?_, ?_, ?_, ?_⟩
  · intro ids by_; exact castPermissionError_translated _ _ _
  · intro ids by_; exact castPermissionError_translated _ _ _
  · intro ids by_; exact castPermissionError_translated _ _ _
  · intro id account keepDeleting reason; exact castPermissionError_translated _ _ _
  · intro id by_; exact castPermissionError_translated _ _ _
  · simp [castPermissionError, extractException]

/-! ## Readers -/

theorem castNoRows_signalled (ErrNoRows : Error) (buf : List Nat) (err : Option Error) :
    NoRowsSignalled ErrNoRows (buf, err) (castNoRows ErrNoRows buf err) := by
  unfold NoRowsSignalled castNoRows
  cases err with
  | some e => simp
  | none =>
    cases buf with
    | nil => simp
    | cons b bs => simp

/-- Claim C11.  For `GetPost`, `GetThread`, `GetBoard` and `GetAllBoard` the
buffer returned is the buffer the store yielded; the error returned is
`ErrNoRows` when the query succeeded with an empty buffer, nil when it
succeeded with a non-empty buffer, and the error of the query when it failed;
and `castNoRows` never changes the buffer. -/
theorem not_found_signalling (ErrNoRows : Error)
    (QueryRow : ReaderQuery → List Nat × Option Error) :
    (∀ id, NoRowsSignalled ErrNoRows (QueryRow (ReaderQuery.get_post id))
        (GetPost QueryRow ErrNoRows id))
    ∧ (∀ id page, NoRowsSignalled ErrNoRows (QueryRow (ReaderQuery.get_thread id page))
        (GetThread QueryRow ErrNoRows id page))
    ∧ (∀ board page, NoRowsSignalled ErrNoRows (QueryRow (ReaderQuery.get_board board page))
        (GetBoard QueryRow ErrNoRows board page))
    ∧ (∀ page, NoRowsSignalled ErrNoRows (QueryRow (ReaderQuery.get_all_board page))
        (GetAllBoard QueryRow ErrNoRows page))
    ∧ (∀ buf err, (castNoRows ErrNoRows buf err).1 = buf) := by
  refine ⟨?_, ?_, ?_, ?_, ?_⟩
  · intro id; exact castNoRows_signalled _ _ _
  · intro id page; exact castNoRows_signalled _ _ _
  · intro board page; exact castNoRows_signalled _ _ _
  · intro page; exact castNoRows_signalled _ _ _
  · intro buf err; exact (castNoRows_signalled ErrNoRows buf err).1

/-- Claim C13.  `OpenPostMetaFromPost` copies `Page` and `Body`; `HasImage` is
true exactly when the post has an image, and `Spoilered` is the image's
`Spoiler` flag when there is an image and false otherwise. -/
theorem OpenPostMetaFromPost_fields (p : Post) :
    (OpenPostMetaFromPost p).Page = p.Page
    ∧ (OpenPostMetaFromPost p).Body = p.Body
    ∧ ((OpenPostMetaFromPost p).HasImage = true ↔ p.Image ≠ none)
    ∧ (∀ image, p.Image = some image → (OpenPostMetaFromPost p).Spoilered = image.Spoiler)
    ∧ (p.Image = none → (OpenPostMetaFromPost p).Spoilered = false) := by
  unfold OpenPostMetaFromPost
  cases h : p.Image with
  | none => simp
  | some image => simp

/-- Witness of `OpenPostMetaFromPost_fields`: the post of
`TestOpenPostMetaFromPost`, on page 1 with body "foo" and a spoilered image. -/
theorem OpenPostMetaFromPost_fields_witness :
    (⟨1, "foo", some ⟨true⟩⟩ : Post).Image = some ⟨true⟩
    ∧ (OpenPostMetaFromPost ⟨1, "foo", some ⟨true⟩⟩).Spoilered = true :=
  ⟨rfl, (OpenPostMetaFromPost_fields ⟨1, "foo", some ⟨true⟩⟩).2.2.2.1 ⟨true⟩ rfl⟩

theorem ensureArray_filled (buf : List Nat) :
    ensureArray buf ≠ [] ∧ (buf = [] → ensureArray buf = emptyArray)
    ∧ (buf ≠ [] → ensureArray buf = buf) := by
  unfold ensureArray emptyArray
  cases buf with
  | nil => simp
  | cons b bs => simp

/-- Claim C12 fails on the code: the query of `GetBoardCatalog` is sent without
the board, so whatever the store answers, the catalog returned for board "c"
and the catalog returned for board "z" are the same buffer with the same
error. -/
theorem GetBoardCatalog_ignores_board (QueryRow : ReaderQuery → List Nat × Option Error) :
    GetBoardCatalog QueryRow "c" = GetBoardCatalog QueryRow "z" := by
  unfold GetBoardCatalog
  rfl

/-! ## Thread meta-information -/

theorem copyModeration_empty (id : Nat) (mod : List ModerationEntry) :
    copyModeration GoMap.empty id mod = GoMap.empty := rfl

theorem forRows_moderation_empty
    (Unmarshal : List Nat → Except Error (List ModerationEntry))
    (rows : List (Except Error (Nat × List Nat))) :
    (forRows
      (fun (moderation : GoMap (List ModerationEntry)) (row : Nat × List Nat) =>
        match Unmarshal row.2 with
        | Except.error e => (moderation, some e)
        | Except.ok mod => (copyModeration moderation row.1 mod, none))
      rows GoMap.empty).1 = GoMap.empty := by
  induction rows with
  | nil => rfl
  | cons row rows ih =>
    cases row with
    | error e => rfl
    | ok a =>
      rw [forRows]
      cases h : Unmarshal a.2 with
      | error e => rfl
      | ok mod =>
        simp only [copyModeration_empty]
        exact ih

theorem GetThreadMeta_moderation_empty (db : MetaStore)
    (Unmarshal : List Nat → Except Error (List ModerationEntry)) (thread : Nat) :
    (GetThreadMeta db Unmarshal thread).moderation = GoMap.empty := by
  unfold GetThreadMeta
  repeat' first
    | split
    | rfl
    | exact forRows_moderation_empty Unmarshal _
    | (dsimp only; split)

/-- Claim C14 fails on the code: on the store of the reader tests, where post 1
of thread 1 is moderated and its moderation decodes to one entry,
`GetThreadMeta` returns without error and its moderation map holds nothing
under post 1. -/
theorem GetThreadMeta_drops_moderation :
    (GetThreadMeta sampleMetaStore sampleUnmarshal 1).err = none
    ∧ sampleUnmarshal [1]
        = Except.ok
            [{ Type_ := ModerationAction.DeletePost, Length := 0, By := "admin",
               Data := "test" }]
    ∧ (GetThreadMeta sampleMetaStore sampleUnmarshal 1).moderation 1 = none :=
  ⟨by decide, rfl, by decide⟩

end Meguca
